import Mathlib

/- Verification of the structured-extraction engine core: JSON data model,
   schema normalizer, tool-argument wrapping, cache key, memory cache,
   validation pipeline, HTTP validator, text JSON extraction, and the
   extraction loop. -/

set_option maxHeartbeats 1000000

/-- JSON values as produced by JSON.parse / consumed by JSON.stringify.
Numeric literals are kept as their source text (no claim depends on
numeric semantics). -/
inductive Json where
  | null : Json
  | bool (b : Bool) : Json
  | num (lit : String) : Json
  | str (s : String) : Json
  | arr (items : List Json) : Json
  | obj (fields : List (String × Json)) : Json

/-- Property lookup on a JS object (fields are kept duplicate-free, so
first-match lookup coincides with JS property access). -/
def lookupField : List (String × Json) → String → Option Json
  | [], _ => none
  | (k, v) :: rest, key => if k = key then some v else lookupField rest key

/-- `key in obj` test from JS. -/
def hasKey (fields : List (String × Json)) (key : String) : Bool :=
  (lookupField fields key).isSome

/-- `normalizeToolArguments` from the extraction loop: with a non-null
`unwrapKey`, an object already carrying the key passes through unchanged;
anything else (arrays, primitives, null, other objects) is wrapped as
`\x7b [unwrapKey]: args \x7d`. -/
def normalizeToolArguments (args : Json) (unwrapKey : Option String) : Json :=
  match unwrapKey with
  | none => args
  | some key =>
    match args with
    | Json.obj fields =>
      if hasKey fields key then Json.obj fields else Json.obj [(key, Json.obj fields)]
    | other => Json.obj [(key, other)]

/-- `unwrapToolArguments` from the extraction loop: with a non-null
`unwrapKey`, a non-object or an object missing the key is a validation
error; otherwise the value stored under the key is returned. -/
def unwrapToolArguments (data : Json) (unwrapKey : Option String) : Except String Json :=
  match unwrapKey with
  | none => .ok data
  | some key =>
    match data with
    | Json.obj fields =>
      match lookupField fields key with
      | some v => .ok v
      | none => .error ("Validation failed for tool \"respond\": missing \"" ++ key ++ "\" field.")
    | _ => .error ("Validation failed for tool \"respond\": missing \"" ++ key ++ "\" field.")

/-- Token/cost usage accumulated across turns (cost kept in integral
micro-units; no claim depends on fractional cost arithmetic). -/
structure Usage where
  inputTokens : Nat
  outputTokens : Nat
  totalTokens : Nat
  cost : Nat
  deriving DecidableEq, Repr

/-- A cache entry as written by the extraction loop:
`\x7b data, timestamp, turns, usage \x7d`. -/
structure CacheEntry where
  data : Json
  timestamp : Nat
  turns : Nat
  usage : Usage

/-- Ordered association-list view of a JS `Map`: insertion order preserved,
head is the oldest (least-recently inserted) binding. -/
def alistGet {E : Type} : List (String × E) → String → Option E
  | [], _ => none
  | (k, v) :: rest, key => if k = key then some v else alistGet rest key

/-- `Map.delete`: remove the (unique) binding for `key`, keeping order. -/
def eraseKey {E : Type} : List (String × E) → String → List (String × E)
  | [], _ => []
  | (k, v) :: rest, key => if k = key then rest else (k, v) :: eraseKey rest key

/-- The in-memory cache store: a bounded insertion-ordered map. -/
structure MemoryCache (E : Type) where
  maxSize : Nat
  entries : List (String × E)

/-- `createMemoryCache`: empty store with `maxSize ?? 1000`. -/
def createMemoryCache {E : Type} (maxSizeOpt : Option Nat) : MemoryCache E :=
  ⟨maxSizeOpt.getD 1000, []⟩

/-- The `while (map.size > maxSize)` eviction loop of `set`: while the size
exceeds the bound, the oldest (first) key is read and its binding deleted,
except that the loop checks `if (!oldest) break` first — a falsy oldest key
(the empty string, or no key at all) stops eviction with the store still
over the bound. -/
def evictOldest {E : Type} (maxSize : Nat) : List (String × E) → List (String × E)
  | [] => []
  | (k, e) :: rest =>
    if ((k, e) :: rest).length > maxSize then
      if k = "" then (k, e) :: rest else evictOldest maxSize rest
    else (k, e) :: rest

/-- `get`: a hit deletes and re-inserts the binding (LRU refresh) and returns
the entry; a miss leaves the store unchanged. -/
def memGet {E : Type} (c : MemoryCache E) (key : String) : Option E × MemoryCache E :=
  match alistGet c.entries key with
  | none => (none, c)
  | some e => (some e, ⟨c.maxSize, eraseKey c.entries key ++ [(key, e)]⟩)

/-- `set`: delete then insert at the most-recently-used end, then evict
oldest bindings while the size exceeds `maxSize`. -/
def memSet {E : Type} (c : MemoryCache E) (key : String) (e : E) : MemoryCache E :=
  ⟨c.maxSize, evictOldest c.maxSize (eraseKey c.entries key ++ [(key, e)])⟩

/-- `delete`. -/
def memDelete {E : Type} (c : MemoryCache E) (key : String) : MemoryCache E :=
  ⟨c.maxSize, eraseKey c.entries key⟩

/-- `clear`. -/
def memClear {E : Type} (c : MemoryCache E) : MemoryCache E :=
  ⟨c.maxSize, []⟩

/-- One operation against the cache store interface. -/
inductive CacheOp (E : Type) where
  | get (key : String)
  | set (key : String) (entry : E)
  | delete (key : String)
  | clear

/-- Apply one cache-store operation (the value returned by `get` is
irrelevant to the store state). -/
def applyCacheOp {E : Type} (c : MemoryCache E) : CacheOp E → MemoryCache E
  | .get key => (memGet c key).2
  | .set key e => memSet c key e
  | .delete key => memDelete c key
  | .clear => memClear c

/-- Apply a sequence of cache-store operations in order. -/
def applyCacheOps {E : Type} (ops : List (CacheOp E)) (c : MemoryCache E) : MemoryCache E :=
  ops.foldl applyCacheOp c

/-- `true` unless the operation is a `set` writing the empty-string key —
the one key the eviction loop's falsy check treats as absent. -/
def opSetKeyOk {E : Type} : CacheOp E → Bool
  | .set k _ => !(k == "")
  | _ => true

/-- Lower-case hex digit for a nibble. -/
def hexDigit (n : Nat) : Char :=
  if n = 0 then '0' else if n = 1 then '1' else if n = 2 then '2'
  else if n = 3 then '3' else if n = 4 then '4' else if n = 5 then '5'
  else if n = 6 then '6' else if n = 7 then '7' else if n = 8 then '8'
  else if n = 9 then '9' else if n = 10 then 'a' else if n = 11 then 'b'
  else if n = 12 then 'c' else if n = 13 then 'd' else if n = 14 then 'e'
  else 'f'

/-- JSON.stringify escaping of one character inside a string literal
(ECMA-262 QuoteJSONString): quote and backslash are backslash-escaped,
the named control escapes b/f/n/r/t are used, remaining control
characters become \u00XX, everything else is passed through. -/
def escapeChar (c : Char) : List Char :=
  if c = '"' then ['\\', '"']
  else if c = '\\' then ['\\', '\\']
  else if c = '\x08' then ['\\', 'b']
  else if c = '\x0c' then ['\\', 'f']
  else if c = '\n' then ['\\', 'n']
  else if c = '\r' then ['\\', 'r']
  else if c = '\t' then ['\\', 't']
  else if c.toNat < 32 then
    ['\\', 'u', '0', '0', hexDigit (c.toNat / 16), hexDigit (c.toNat % 16)]
  else [c]

/-- A JSON string literal: opening quote, escaped content, closing quote. -/
def encodeJsonString (s : String) : String :=
  String.mk ('"' :: (s.data.flatMap escapeChar ++ ['"']))

mutual

/-- JSON.stringify on a JSON value. -/
def jsonStringify : Json → String
  | .null => "null"
  | .bool true => "true"
  | .bool false => "false"
  | .num lit => lit
  | .str s => encodeJsonString s
  | .arr items => "[" ++ stringifyItems items ++ "]"
  | .obj fields => "\x7b" ++ stringifyFields fields ++ "\x7d"

/-- Comma-separated stringification of array elements. -/
def stringifyItems : List Json → String
  | [] => ""
  | [x] => jsonStringify x
  | x :: y :: rest => jsonStringify x ++ "," ++ stringifyItems (y :: rest)

/-- Comma-separated stringification of object members. -/
def stringifyFields : List (String × Json) → String
  | [] => ""
  | [(k, v)] => encodeJsonString k ++ ":" ++ jsonStringify v
  | (k, v) :: y :: rest =>
      encodeJsonString k ++ ":" ++ jsonStringify v ++ "," ++ stringifyFields (y :: rest)

end

/- SHA-256 (FIPS 180-4), the hash behind createHash("sha256"), over 32-bit
words carried as Nat reduced mod 2^32. -/

/-- 32-bit truncation. -/
def w32 (x : Nat) : Nat := x % 4294967296

/-- 32-bit right rotation. -/
def rotr32 (n : Nat) (x : Nat) : Nat :=
  w32 ((x >>> n) ||| (x <<< (32 - n)))

/-- Bitwise complement on 32 bits. -/
def not32 (x : Nat) : Nat := 4294967295 - w32 x

def sigBig0 (x : Nat) : Nat := (rotr32 2 x) ^^^ (rotr32 13 x) ^^^ (rotr32 22 x)
def sigBig1 (x : Nat) : Nat := (rotr32 6 x) ^^^ (rotr32 11 x) ^^^ (rotr32 25 x)
def sigSm0 (x : Nat) : Nat := (rotr32 7 x) ^^^ (rotr32 18 x) ^^^ (w32 x >>> 3)
def sigSm1 (x : Nat) : Nat := (rotr32 17 x) ^^^ (rotr32 19 x) ^^^ (w32 x >>> 10)
def chWord (x y z : Nat) : Nat := (x &&& y) ^^^ ((not32 x) &&& z)
def majWord (x y z : Nat) : Nat := (x &&& y) ^^^ (x &&& z) ^^^ (y &&& z)

/-- SHA-256 round constants (FIPS 180-4, written in decimal). -/
def sha256K : List Nat :=
  [1116352408, 1899447441, 3049323471, 3921009573, 961987163,
   1508970993, 2453635748, 2870763221, 3624381080, 310598401,
   607225278, 1426881987, 1925078388, 2162078206, 2614888103,
   3248222580, 3835390401, 4022224774, 264347078, 604807628,
   770255983, 1249150122, 1555081692, 1996064986, 2554220882,
   2821834349, 2952996808, 3210313671, 3336571891, 3584528711,
   113926993, 338241895, 666307205, 773529912, 1294757372,
   1396182291, 1695183700, 1986661051, 2177026350, 2456956037,
   2730485921, 2820302411, 3259730800, 3345764771, 3516065817,
   3600352804, 4094571909, 275423344, 430227734, 506948616,
   659060556, 883997877, 958139571, 1322822218, 1537002063,
   1747873779, 1955562222, 2024104815, 2227730452, 2361852424,
   2428436474, 2756734187, 3204031479, 3329325298]

/-- SHA-256 initial hash value (FIPS 180-4, written in decimal). -/
def sha256H0 : List Nat :=
  [1779033703, 3144134277, 1013904242, 2773480762,
   1359893119, 2600822924, 528734635, 1541459225]

/-- Message padding: append 0x80, zero bytes up to 56 mod 64, then the
bit length as 8 big-endian bytes. -/
def sha256Pad (msg : List Nat) : List Nat :=
  let len := msg.length
  let zeros := (120 - ((len + 1) % 64)) % 64
  let lenBytes := (List.range 8).map (fun i => ((8 * len) >>> (8 * (7 - i))) % 256)
  msg ++ [0x80] ++ List.replicate zeros 0 ++ lenBytes

/-- Split the padded message into 64-byte blocks. -/
def chunk64 (l : List Nat) : List (List Nat) :=
  if h : l = [] then []
  else (l.take 64) :: chunk64 (l.drop 64)
termination_by l.length
decreasing_by
  have hpos : 0 < l.length := List.length_pos.mpr h
  simp only [List.length_drop]
  omega

/-- The 16 initial 32-bit words of a block (big-endian). -/
def blockWords (block : List Nat) : List Nat :=
  (List.range 16).map (fun i =>
    ((block.getD (4 * i) 0 % 256) <<< 24) + ((block.getD (4 * i + 1) 0 % 256) <<< 16)
      + ((block.getD (4 * i + 2) 0 % 256) <<< 8) + (block.getD (4 * i + 3) 0 % 256))

/-- One message-schedule extension step. -/
def scheduleStep (acc : List Nat) : List Nat :=
  let n := acc.length
  let w2 := acc.getD (n - 2) 0
  let w7 := acc.getD (n - 7) 0
  let w15 := acc.getD (n - 15) 0
  let w16 := acc.getD (n - 16) 0
  acc ++ [w32 (sigSm1 w2 + w7 + sigSm0 w15 + w16)]

/-- The 64-word message schedule of a block. -/
def msgSchedule (block : List Nat) : List Nat :=
  (List.range 48).foldl (fun acc _ => scheduleStep acc) (blockWords block)

/-- One of the 64 compression rounds over the working state (a..h). -/
def sha256Round (st : Nat × Nat × Nat × Nat × Nat × Nat × Nat × Nat) (kw : Nat × Nat) :
    Nat × Nat × Nat × Nat × Nat × Nat × Nat × Nat :=
  match st, kw with
  | (a, b, c, d, e, f, g, h), (k, w) =>
    let t1 := w32 (h + sigBig1 e + chWord e f g + k + w)
    let t2 := w32 (sigBig0 a + majWord a b c)
    (w32 (t1 + t2), a, b, c, w32 (d + t1), e, f, g)

/-- Compress one 64-byte block into the running eight-word hash state. -/
def sha256Compress (hs : List Nat) (block : List Nat) : List Nat :=
  let ws := msgSchedule block
  let kws := sha256K.zip ws
  let a0 := hs.getD 0 0
  let b0 := hs.getD 1 0
  let c0 := hs.getD 2 0
  let d0 := hs.getD 3 0
  let e0 := hs.getD 4 0
  let f0 := hs.getD 5 0
  let g0 := hs.getD 6 0
  let h0 := hs.getD 7 0
  let st := kws.foldl sha256Round (a0, b0, c0, d0, e0, f0, g0, h0)
  [w32 (a0 + st.1), w32 (b0 + st.2.1), w32 (c0 + st.2.2.1), w32 (d0 + st.2.2.2.1),
   w32 (e0 + st.2.2.2.2.1), w32 (f0 + st.2.2.2.2.2.1), w32 (g0 + st.2.2.2.2.2.2.1),
   w32 (h0 + st.2.2.2.2.2.2.2)]

/-- SHA-256 digest of a byte sequence, as a natural number below 2^256. -/
def sha256Nat (msg : List Nat) : Nat :=
  let blocks := chunk64 (sha256Pad msg)
  let hs := blocks.foldl sha256Compress sha256H0
  hs.foldl (fun acc h => acc * 4294967296 + w32 h) 0

/-- UTF-8 bytes of a string. -/
def strBytes (s : String) : List Nat :=
  s.toUTF8.toList.map (fun b => b.toNat)

/-- Hex rendering of a 256-bit digest (64 lower-case hex digits). -/
def hexOfDigest (d : Nat) : String :=
  String.mk ((List.range 64).map (fun i => hexDigit ((d >>> (4 * (63 - i))) % 16)))

/-- A tool invocation returned by the model. -/
structure ToolCallBlock where
  id : String
  name : String
  arguments : Json

/-- One block of message content (pi-ai content union). -/
inductive ContentBlock where
  | text (s : String)
  | thinking (s : String)
  | image (mimeType : String) (data : String)
  | toolCall (tc : ToolCallBlock)

/-- User message content: a bare string or an array of blocks. -/
inductive UserContent where
  | plain (s : String)
  | blocks (l : List ContentBlock)

/-- An assistant message: content blocks plus this turn's usage. -/
structure AssistantMessage where
  content : List ContentBlock
  usage : Usage

/-- A conversation message (pi-ai Message union). -/
inductive Message where
  | user (content : UserContent) (timestamp : Nat)
  | assistant (m : AssistantMessage)
  | toolResult (toolCallId : String) (toolName : String) (text : String)
      (isError : Bool) (timestamp : Nat)

/-- The model descriptor fields the core reads. -/
structure ModelInfo where
  provider : String
  id : String
  name : String
  maxTokens : Nat
  contextWindow : Nat
  reasoning : Bool

/-- Outcome of one Generation Service call: a final assistant message, or a
failure already rendered to an error message (transport internals are the
collaborator's concern). -/
def LlmOutcome : Type := Except String AssistantMessage

/-- The Generation Service collaborator: the assistant outcome as a function
of the turn index and the conversation sent. -/
def StreamOracle : Type := Nat → List Message → LlmOutcome

/-- Cache options (the object form of `cache`): optional injected store,
TTL, revalidate-on-hit flag, and custom key function. -/
structure CacheOptionsM where
  store : Option (MemoryCache CacheEntry)
  ttl : Option Nat
  revalidate : Option Bool
  keyFn : Option (String → String)

/-- ExtractOptions: the caller-supplied request configuration. Function
validators are carried as their outcome maps; `cache = none` covers both an
absent and a false `cache` flag. -/
structure ExtractOptions where
  schema : Json
  prompt : String
  model : Option ModelInfo
  apiKey : Option String
  attachments : List ContentBlock
  validate : Option (Json → Except String Unit)
  validateAsync : Option (Json → Except String Unit)
  validateCommand : Option String
  validateUrl : Option String
  maxTurns : Option Nat
  streamFn : Option StreamOracle
  cache : Option CacheOptionsM
  thinking : Option String

/-- JSON rendering of a content block (used when a structured conversation
input is serialized for the cache key). -/
def contentBlockToJson : ContentBlock → Json
  | .text s => Json.obj [("type", Json.str "text"), ("text", Json.str s)]
  | .thinking s => Json.obj [("type", Json.str "thinking"), ("thinking", Json.str s)]
  | .image m d =>
      Json.obj [("type", Json.str "image"), ("mimeType", Json.str m), ("data", Json.str d)]
  | .toolCall tc =>
      Json.obj [("type", Json.str "toolCall"), ("id", Json.str tc.id),
        ("name", Json.str tc.name), ("arguments", tc.arguments)]

/-- JSON rendering of a message. -/
def messageToJson : Message → Json
  | .user (.plain s) ts =>
      Json.obj [("role", Json.str "user"), ("content", Json.str s),
        ("timestamp", Json.num (Nat.repr ts))]
  | .user (.blocks l) ts =>
      Json.obj [("role", Json.str "user"), ("content", Json.arr (l.map contentBlockToJson)),
        ("timestamp", Json.num (Nat.repr ts))]
  | .assistant m =>
      Json.obj [("role", Json.str "assistant"),
        ("content", Json.arr (m.content.map contentBlockToJson))]
  | .toolResult id name text isError ts =>
      Json.obj [("role", Json.str "toolResult"), ("toolCallId", Json.str id),
        ("toolName", Json.str name),
        ("content", Json.arr [Json.obj [("type", Json.str "text"), ("text", Json.str text)]]),
        ("isError", Json.bool isError), ("timestamp", Json.num (Nat.repr ts))]

/-- A nullable string field of the key data. -/
def optStrToJson : Option String → Json
  | none => Json.null
  | some s => Json.str s

/-- The serialized cache-key fingerprint: JSON.stringify of the keyData
object `\x7b input, schema, prompt, model, validateCommand, validateUrl \x7d`
(the SHA-256 preimage). -/
def cacheKeyData (input : String) (schema : Json) (prompt : String) (modelName : String)
    (vcmd vurl : Option String) : String :=
  jsonStringify (Json.obj
    [("input", Json.str input),
     ("schema", Json.str (jsonStringify schema)),
     ("prompt", Json.str prompt),
     ("model", Json.str modelName),
     ("validateCommand", optStrToJson vcmd),
     ("validateUrl", optStrToJson vurl)])

/-- `computeCacheKey`: SHA-256 hex digest of the serialized key data. -/
def computeCacheKey (input : String) (o : ExtractOptions) : String :=
  hexOfDigest (sha256Nat (strBytes (cacheKeyData input o.schema o.prompt
    ((o.model.map ModelInfo.name).getD "unknown") o.validateCommand o.validateUrl)))

/-- Value of a lower-case hex digit character. -/
def hexVal (c : Char) : Option Nat :=
  if c = '0' then some 0 else if c = '1' then some 1 else if c = '2' then some 2
  else if c = '3' then some 3 else if c = '4' then some 4 else if c = '5' then some 5
  else if c = '6' then some 6 else if c = '7' then some 7 else if c = '8' then some 8
  else if c = '9' then some 9 else if c = 'a' then some 10 else if c = 'b' then some 11
  else if c = 'c' then some 12 else if c = 'd' then some 13 else if c = 'e' then some 14
  else if c = 'f' then some 15 else none

/-- Inverse of the named control escapes. -/
def unescChar (c : Char) : Option Char :=
  if c = '"' then some '"'
  else if c = '\\' then some '\\'
  else if c = 'b' then some '\x08'
  else if c = 'f' then some '\x0c'
  else if c = 'n' then some '\n'
  else if c = 'r' then some '\r'
  else if c = 't' then some '\t'
  else none

/-- Proof-support inverse of the JSON string-literal escape: reads escaped
content up to the closing quote, returning the decoded characters and the
remainder. Not part of the source; used only to establish injectivity of
the cache-key fingerprint. -/
def decEsc (l : List Char) : Option (List Char × List Char) :=
  match l with
  | [] => none
  | c :: rest =>
    if c = '"' then some ([], rest)
    else if c = '\\' then
      match rest with
      | 'u' :: a :: b :: c2 :: d :: rest2 =>
        match hexVal a, hexVal b, hexVal c2, hexVal d with
        | some x, some y, some z, some w =>
          (decEsc rest2).map (fun p => (Char.ofNat (((x * 16 + y) * 16 + z) * 16 + w) :: p.1, p.2))
        | _, _, _, _ => none
      | e :: rest2 =>
        match unescChar e with
        | some c2 => (decEsc rest2).map (fun p => (c2 :: p.1, p.2))
        | none => none
      | [] => none
    else (decEsc rest).map (fun p => (c :: p.1, p.2))
termination_by l.length
decreasing_by
  all_goals simp only [List.length_cons]
  all_goals omega

/-- JS object assignment `obj[key] = v`: overwrite in place if the key
exists (keeping its position), else append. -/
def objSet : List (String × Json) → String → Json → List (String × Json)
  | [], key, v => [(key, v)]
  | (k, w) :: rest, key, v =>
    if k = key then (k, v) :: rest else (k, w) :: objSet rest key v

/-- `isConstSchema`: a non-null object-typed value carrying a `const` key
(JS arrays carry no `const` property, so they test false). -/
def isConstSchema : Json → Bool
  | Json.obj fields => hasKey fields "const"
  | _ => false

/-- `item.const` of a const schema (guarded by `isConstSchema` at call
sites). -/
def constValue : Json → Json
  | Json.obj fields => (lookupField fields "const").getD Json.null
  | _ => Json.null

/-- `collectEnumTypes` accumulator: gathers the string `type` fields into an
insertion-ordered deduplicated list, returning [] outright if any item is
not object-typed (JS arrays are object-typed and merely contribute no
type). -/
def collectAux : List Json → List String → List String
  | [], acc => acc
  | item :: rest, acc =>
    match item with
    | Json.obj fields =>
      match lookupField fields "type" with
      | some (Json.str t) =>
        collectAux rest (if acc.contains t then acc else acc ++ [t])
      | _ => collectAux rest acc
    | Json.arr _ => collectAux rest acc
    | _ => []

/-- `collectEnumTypes` from the schema normalizer. -/
def collectEnumTypes (items : List Json) : List String :=
  collectAux items []

mutual

/-- `normalizeLiterals`: collapse an all-const `anyOf` into an `enum`
(plus the shared `type` when there is exactly one), rewrite a bare `const`
into a one-element `enum`, and recurse into children. Object fields are
unique (JS object invariant). -/
def normalizeLiterals : Json → Json
  | Json.arr items => Json.arr (normList items)
  | Json.obj fields =>
    match lookupField fields "anyOf" with
    | some (Json.arr variants) =>
      if variants.length > 0 && variants.all isConstSchema then
        let values := variants.map constValue
        let types := collectEnumTypes variants
        let withEnum := objSet (normFieldsExcept (some "anyOf") fields) "enum" (Json.arr values)
        if types.length = 1 then
          Json.obj (objSet withEnum "type" (Json.str (types.headD "")))
        else if types.length = 0 then
          Json.obj (eraseKey withEnum "type")
        else Json.obj withEnum
      else normObjRest fields
    | _ => normObjRest fields
  | j => j

/-- The `const`-rewrite and plain-copy cases of `normalizeLiterals` on an
object node without a collapsible `anyOf`. -/
def normObjRest (fields : List (String × Json)) : Json :=
  if hasKey fields "const" then
    Json.obj (objSet (normFieldsExcept (some "const") fields) "enum"
      (Json.arr [(lookupField fields "const").getD Json.null]))
  else Json.obj (normFieldsExcept none fields)

/-- Recurse into array elements. -/
def normList : List Json → List Json
  | [] => []
  | x :: rest => normalizeLiterals x :: normList rest

/-- Copy the fields of an object node, skipping at most one key and
normalizing each kept value. -/
def normFieldsExcept (skip : Option String) : List (String × Json) → List (String × Json)
  | [] => []
  | (k, v) :: rest =>
    if skip = some k then normFieldsExcept skip rest
    else (k, normalizeLiterals v) :: normFieldsExcept skip rest

end

/-- Character-list prefix test (JS `String.startsWith` on the ASCII
prefixes used for schema references). -/
def listStarts : List Char → List Char → Bool
  | [], _ => true
  | _ :: _, [] => false
  | p :: ps, c :: cs => p = c && listStarts ps cs

/-- JS truthiness of a JSON value (numbers by their literal text; reference
targets are object schemas in practice). -/
def jsTruthy : Json → Bool
  | Json.null => false
  | Json.bool b => b
  | Json.num lit => !(lit = "0")
  | Json.str s => !(s = "")
  | Json.arr _ => true
  | Json.obj _ => true

/-- `Map.set`: overwrite in place if present, else append. -/
def alistSet {E : Type} : List (String × E) → String → E → List (String × E)
  | [], key, v => [(key, v)]
  | (k, w) :: rest, key, v =>
    if k = key then (k, v) :: rest else (k, w) :: alistSet rest key v

/-- `resolveRef`: a `#/$defs/...` or `#/definitions/...` reference is looked
up (by its remainder) in the definitions map; anything else is unresolvable. -/
def resolveRef (ref : String) (defs : List (String × Json)) : Option Json :=
  if listStarts ("#/$defs/").data ref.data then
    lookupField defs (String.mk (ref.data.drop 8))
  else if listStarts ("#/definitions/").data ref.data then
    lookupField defs (String.mk (ref.data.drop 14))
  else none

/-- All reference strings that can enter the in-progress set: each
definitions key under either prefix. -/
def candidateRefs (defs : List (String × Json)) : List String :=
  defs.flatMap (fun kv => ["#/$defs/" ++ kv.1, "#/definitions/" ++ kv.1])

/-- Termination measure: how many candidate references are not yet in the
in-progress set. -/
def refsLeft (defs : List (String × Json)) (resolving : List String) : Nat :=
  ((candidateRefs defs).filter (fun r => !(resolving.contains r))).length

/-- `$defs ?? definitions` from the schema root (a non-object, non-null
value under `$defs` yields no usable map). -/
def extractDefs (rootFields : List (String × Json)) : List (String × Json) :=
  match lookupField rootFields "$defs" with
  | some (Json.obj d) => d
  | some Json.null =>
    (match lookupField rootFields "definitions" with
     | some (Json.obj d) => d
     | _ => [])
  | some _ => []
  | none =>
    (match lookupField rootFields "definitions" with
     | some (Json.obj d) => d
     | _ => [])

mutual

/-- `resolveNode` of `resolveRefs`: resolve a reference node through the
definitions map, memoizing resolved references in `seen` and leaving a
node whose reference is already in the in-progress set unchanged (the
cycle edge); recurse into children otherwise, dropping `$defs` /
`definitions` members. -/
def resolveNode (defs : List (String × Json)) (resolving : List String)
    (node : Json) (seen : List (String × Json)) : Json × List (String × Json) :=
  match node with
  | Json.arr items =>
    let r := resolveList defs resolving items seen
    (Json.arr r.1, r.2)
  | Json.obj fields =>
    match lookupField fields "$ref" with
    | some (Json.str ref) =>
      match htarget : resolveRef ref defs with
      | some target =>
        if jsTruthy target then
          match alistGet seen ref with
          | some v => (v, seen)
          | none =>
            if hres : ref ∈ resolving then (Json.obj fields, seen)
            else
              let r := resolveNode defs (ref :: resolving) target seen
              (r.1, alistSet r.2 ref r.1)
        else
          let r := resolveFields defs resolving fields seen
          (Json.obj r.1, r.2)
      | none =>
        let r := resolveFields defs resolving fields seen
        (Json.obj r.1, r.2)
    | _ =>
      let r := resolveFields defs resolving fields seen
      (Json.obj r.1, r.2)
  | other => (other, seen)
termination_by (refsLeft defs resolving, sizeOf node)
decreasing_by
  all_goals try decreasing_tactic
  all_goals simp_wf
  all_goals apply Prod.Lex.left
  all_goals
    have hstr : ∀ s1 s2 : String, s1.data = s2.data → s1 = s2 := by
      intro s1 s2 hh
      cases s1
      cases s2
      exact congrArg String.mk hh
    have recomp : ∀ (p l : List Char), listStarts p l = true → p ++ l.drop p.length = l := by
      intro p
      induction p with
      | nil => intro l _; simp
      | cons a ps ih =>
        intro l hh
        cases l with
        | nil => simp [listStarts] at hh
        | cons b bs =>
          simp only [listStarts, Bool.and_eq_true, decide_eq_true_eq] at hh
          obtain ⟨hab, hrest⟩ := hh
          subst hab
          simp only [List.cons_append, List.length_cons, List.drop_succ_cons]
          rw [ih bs hrest]
    have hlk : ∀ (l : List (String × Json)) (k : String) (v : Json),
        lookupField l k = some v → k ∈ l.map Prod.fst := by
      intro l
      induction l with
      | nil => intro k v hh; simp [lookupField] at hh
      | cons x rest ih =>
        intro k v hh
        obtain ⟨k0, v0⟩ := x
        by_cases he : k0 = k
        · subst he; simp
        · simp only [lookupField, if_neg he] at hh
          simpa using Or.inr (ih k v hh)
    have hmem : ref ∈ candidateRefs defs := by
      unfold resolveRef at htarget
      by_cases hp1 : listStarts ("#/$defs/").data ref.data
      · rw [if_pos hp1] at htarget
        obtain ⟨kv, hkv, hfst⟩ := List.mem_map.mp (hlk defs _ _ htarget)
        refine List.mem_flatMap.mpr ⟨kv, hkv, ?_⟩
        have heq : ("#/$defs/" : String) ++ String.mk (ref.data.drop 8) = ref := by
          apply hstr
          exact recomp ("#/$defs/").data ref.data hp1
        rw [hfst, heq]
        simp
      · rw [if_neg hp1] at htarget
        by_cases hp2 : listStarts ("#/definitions/").data ref.data
        · rw [if_pos hp2] at htarget
          obtain ⟨kv, hkv, hfst⟩ := List.mem_map.mp (hlk defs _ _ htarget)
          refine List.mem_flatMap.mpr ⟨kv, hkv, ?_⟩
          have heq : ("#/definitions/" : String) ++ String.mk (ref.data.drop 14) = ref := by
            apply hstr
            exact recomp ("#/definitions/").data ref.data hp2
          rw [hfst, heq]
          simp
        · rw [if_neg hp2] at htarget
          exact absurd htarget (by simp)
    unfold refsLeft
    have hsub : List.Sublist
        ((candidateRefs defs).filter (fun r => !((ref :: resolving).contains r)))
        ((candidateRefs defs).filter (fun r => !(resolving.contains r))) := by
      apply List.monotone_filter_right
      intro a ha
      simp at ha ⊢
      exact ha.2
    have hmemf : ref ∈ (candidateRefs defs).filter (fun r => !(resolving.contains r)) := by
      apply List.mem_filter.mpr
      exact ⟨hmem, by simp [hres]⟩
    have hnotf : ref ∉ (candidateRefs defs).filter (fun r => !((ref :: resolving).contains r)) := by
      intro hc
      have hcc := (List.mem_filter.mp hc).2
      simp at hcc
    have hlt := hsub.length_le
    rcases Nat.lt_or_ge
        ((candidateRefs defs).filter (fun r => !((ref :: resolving).contains r))).length
        ((candidateRefs defs).filter (fun r => !(resolving.contains r))).length with hl | hg
    · exact hl
    · exfalso
      have heqf := hsub.eq_of_length (Nat.le_antisymm hlt hg)
      rw [heqf] at hnotf
      exact hnotf hmemf

/-- Resolve the elements of an array node in order, threading the memo. -/
def resolveList (defs : List (String × Json)) (resolving : List String)
    (items : List Json) (seen : List (String × Json)) :
    List Json × List (String × Json) :=
  match items with
  | [] => ([], seen)
  | x :: rest =>
    let r1 := resolveNode defs resolving x seen
    let r2 := resolveList defs resolving rest r1.2
    (r1.1 :: r2.1, r2.2)
termination_by (refsLeft defs resolving, sizeOf items)

/-- Resolve the members of an object node in order, skipping `$defs` and
`definitions`, threading the memo. -/
def resolveFields (defs : List (String × Json)) (resolving : List String)
    (fields : List (String × Json)) (seen : List (String × Json)) :
    List (String × Json) × List (String × Json) :=
  match fields with
  | [] => ([], seen)
  | (k, v) :: rest =>
    if k = "$defs" || k = "definitions" then resolveFields defs resolving rest seen
    else
      let r1 := resolveNode defs resolving v seen
      let r2 := resolveFields defs resolving rest r1.2
      ((k, r1.1) :: r2.1, r2.2)
termination_by (refsLeft defs resolving, sizeOf fields)

end

/-- `resolveRefs`: compute the definitions map from the root and resolve
from the root with empty in-progress and memo state; non-object roots
(except arrays, which are object-typed in JS) pass through. -/
def resolveRefs (schema : Json) : Json :=
  match schema with
  | Json.obj rootFields => (resolveNode (extractDefs rootFields) [] (Json.obj rootFields) []).1
  | Json.arr items => (resolveNode [] [] (Json.arr items) []).1
  | other => other

mutual

/-- `stripUnsupportedKeywords`: drop `examples` members everywhere. -/
def stripUnsupportedKeywords : Json → Json
  | Json.arr items => Json.arr (stripList items)
  | Json.obj fields => Json.obj (stripFields fields)
  | j => j

/-- Strip inside array elements. -/
def stripList : List Json → List Json
  | [] => []
  | x :: rest => stripUnsupportedKeywords x :: stripList rest

/-- Strip inside object members, dropping the `examples` key. -/
def stripFields : List (String × Json) → List (String × Json)
  | [] => []
  | (k, v) :: rest =>
    if k = "examples" then stripFields rest
    else (k, stripUnsupportedKeywords v) :: stripFields rest

end

/-- `isObjectSchema`: the node's `type` is the string "object", or it has a
`properties` member. -/
def isObjectSchema : Json → Bool
  | Json.obj fields =>
    match lookupField fields "type" with
    | some (Json.str t) => if t = "object" then true else hasKey fields "properties"
    | _ => hasKey fields "properties"
  | _ => false

/-- `wrapNonObjectSchema`: wrap a non-object shape as a required
single-field object under the well-known key "value", returning that key
as the unwrap key; object shapes pass through with no unwrap key. -/
def wrapNonObjectSchema (schema : Json) : Json × Option String :=
  if isObjectSchema schema then (schema, none)
  else
    (Json.obj
      [("type", Json.str "object"),
       ("properties", Json.obj [("value", schema)]),
       ("required", Json.arr [Json.str "value"]),
       ("additionalProperties", Json.bool false)],
     some "value")

/-- Providers whose tool schemas need literal normalization. -/
def providersWithSchemaConstraints : List String :=
  ["google-antigravity", "google-gemini-cli"]

/-- Providers whose tool schemas must be object-rooted. -/
def providersRequiringObjectSchema : List String :=
  ["google-antigravity", "google-gemini-cli", "openai-codex"]

/-- `normalizeToolSchema`: resolve references, collapse literals and strip
unsupported keywords for constrained providers (the deep clone is the
identity in a pure model), then wrap non-object roots for providers that
require object-rooted schemas. -/
def normalizeToolSchema (model : ModelInfo) (schema : Json) : Json × Option String :=
  let normalizedSchema :=
    if providersWithSchemaConstraints.contains model.provider then
      stripUnsupportedKeywords (normalizeLiterals (resolveRefs schema))
    else schema
  if !(providersRequiringObjectSchema.contains model.provider) then (normalizedSchema, none)
  else wrapNonObjectSchema normalizedSchema

/-- Validation layers as emitted in telemetry events. -/
inductive VLayer where
  | schema
  | sync
  | async
  | command
  | http
  deriving DecidableEq, Repr

/-- Validation telemetry: start, pass, or failure with its message. -/
inductive VEvent where
  | start (layer : VLayer)
  | pass (layer : VLayer)
  | fail (layer : VLayer) (error : String)
  deriving DecidableEq, Repr

/-- One guarded layer of `runValidators`: absent layers emit nothing; a
present layer emits its start event and then exactly one of pass (on
success) or failure with the thrown message, which is rethrown. -/
def runLayer (layer : VLayer) : Option (Except String Unit) → List VEvent × Except String Unit
  | none => ([], Except.ok ())
  | some (Except.ok _) => ([VEvent.start layer, VEvent.pass layer], Except.ok ())
  | some (Except.error e) =>
      ([VEvent.start layer, VEvent.fail layer e], Except.error e)

/-- Sequencing of guarded layers: a thrown error propagates past the
remaining layers. -/
def seqLayer (acc : List VEvent × Except String Unit)
    (next : Unit → List VEvent × Except String Unit) : List VEvent × Except String Unit :=
  match acc.2 with
  | Except.error e => (acc.1, Except.error e)
  | Except.ok _ =>
    let r := next ()
    (acc.1 ++ r.1, r.2)

/-- `runValidators`: the four guarded layers in source order — local
synchronous, local asynchronous, external process, external HTTP — with the
external layers' outcomes supplied by their collaborator functions. -/
def runValidators (data : Json) (o : ExtractOptions)
    (runCmd : String → Json → Except String Unit)
    (runHttp : String → Json → Except String Unit) : List VEvent × Except String Unit :=
  seqLayer (runLayer VLayer.sync (o.validate.map (fun f => f data))) (fun _ =>
    seqLayer (runLayer VLayer.async (o.validateAsync.map (fun f => f data))) (fun _ =>
      seqLayer (runLayer VLayer.command (o.validateCommand.map (fun cmd => runCmd cmd data)))
        (fun _ => runLayer VLayer.http (o.validateUrl.map (fun url => runHttp url data)))))

/-- Modelled from the spec (refinement reference): the configured layers in
the fixed order sync, async, command, http, each present layer paired with
its outcome. -/
def pipelineLayers (data : Json) (o : ExtractOptions)
    (runCmd : String → Json → Except String Unit)
    (runHttp : String → Json → Except String Unit) : List (VLayer × Except String Unit) :=
  (match o.validate with
   | some f => [(VLayer.sync, f data)]
   | none => []) ++
  ((match o.validateAsync with
    | some f => [(VLayer.async, f data)]
    | none => []) ++
   ((match o.validateCommand with
     | some cmd => [(VLayer.command, runCmd cmd data)]
     | none => []) ++
    (match o.validateUrl with
     | some url => [(VLayer.http, runHttp url data)]
     | none => [])))

/-- Modelled from the spec (refinement reference): attempt each configured
layer in order, emitting a start event then a pass event, stopping at the
first failing layer with a failure event carrying its message and
propagating that failure; later layers are not attempted. -/
def pipelineSpec : List (VLayer × Except String Unit) → List VEvent × Except String Unit
  | [] => ([], Except.ok ())
  | (layer, Except.ok _) :: rest =>
    let r := pipelineSpec rest
    (VEvent.start layer :: VEvent.pass layer :: r.1, r.2)
  | (layer, Except.error e) :: _ =>
    ([VEvent.start layer, VEvent.fail layer e], Except.error e)

/-- JSON whitespace (ECMA-404: space, tab, line feed, carriage return). -/
def isJsonWs (c : Char) : Bool :=
  c = ' ' || c = '\t' || c = '\n' || c = '\r'

/-- Hex digit of either case (JSON \u escapes). -/
def hexValAny (c : Char) : Option Nat :=
  if c = '0' then some 0 else if c = '1' then some 1 else if c = '2' then some 2
  else if c = '3' then some 3 else if c = '4' then some 4 else if c = '5' then some 5
  else if c = '6' then some 6 else if c = '7' then some 7 else if c = '8' then some 8
  else if c = '9' then some 9
  else if c = 'a' || c = 'A' then some 10 else if c = 'b' || c = 'B' then some 11
  else if c = 'c' || c = 'C' then some 12 else if c = 'd' || c = 'D' then some 13
  else if c = 'e' || c = 'E' then some 14 else if c = 'f' || c = 'F' then some 15
  else none

/-- JSON string escapes accepted by the parser. -/
def unescParse (c : Char) : Option Char :=
  if c = '"' then some '"'
  else if c = '\\' then some '\\'
  else if c = '/' then some '/'
  else if c = 'b' then some '\x08'
  else if c = 'f' then some '\x0c'
  else if c = 'n' then some '\n'
  else if c = 'r' then some '\r'
  else if c = 't' then some '\t'
  else none

/-- JSON string-literal body (after the opening quote): content characters
and the remainder after the closing quote; raw control characters are
rejected. Unicode escapes become the scalar value of their code unit
(surrogate-pair recombination is not modelled; no claim exercises it). -/
def parseStringBody (l : List Char) : Option (List Char × List Char) :=
  match l with
  | [] => none
  | c :: rest =>
    if c = '"' then some ([], rest)
    else if c = '\\' then
      match rest with
      | 'u' :: a :: b :: c2 :: d :: rest2 =>
        match hexValAny a, hexValAny b, hexValAny c2, hexValAny d with
        | some x, some y, some z, some w =>
          (parseStringBody rest2).map
            (fun p => (Char.ofNat (((x * 16 + y) * 16 + z) * 16 + w) :: p.1, p.2))
        | _, _, _, _ => none
      | e :: rest2 =>
        match unescParse e with
        | some c2 => (parseStringBody rest2).map (fun p => (c2 :: p.1, p.2))
        | none => none
      | [] => none
    else if c.toNat < 32 then none
    else (parseStringBody rest).map (fun p => (c :: p.1, p.2))

/-- Continuation of a JSON number after its integer part: optional fraction
and exponent, returning the literal characters. -/
def continueNum (intPart : List Char) (l : List Char) : Option (List Char × List Char) :=
  let fr : Option (List Char × List Char) :=
    match l with
    | '.' :: rest =>
      let p := rest.span (fun c => c.isDigit)
      if p.1 = [] then none else some ('.' :: p.1, p.2)
    | _ => some ([], l)
  match fr with
  | none => none
  | some (fracPart, l2) =>
    match l2 with
    | e :: rest =>
      if e = 'e' || e = 'E' then
        let sp : List Char × List Char :=
          match rest with
          | '+' :: r => (['+'], r)
          | '-' :: r => (['-'], r)
          | _ => ([], rest)
        let p := sp.2.span (fun c => c.isDigit)
        if p.1 = [] then none
        else some (intPart ++ fracPart ++ e :: (sp.1 ++ p.1), p.2)
      else some (intPart ++ fracPart, l2)
    | [] => some (intPart ++ fracPart, [])

/-- A JSON number literal (ECMA-404 grammar: no leading zeros, no leading
plus, mandatory digits around the point and after the exponent). -/
def parseNumber (l : List Char) : Option (List Char × List Char) :=
  let snl : Bool × List Char :=
    match l with
    | '-' :: rest => (true, rest)
    | _ => (false, l)
  match snl.2 with
  | '0' :: rest => continueNum (if snl.1 then ['-', '0'] else ['0']) rest
  | c :: rest =>
    if c.isDigit then
      let p := rest.span (fun d => d.isDigit)
      continueNum ((if snl.1 then ['-'] else []) ++ c :: p.1) p.2
    else none
  | [] => none

mutual

/-- Fueled JSON value parser (JSON.parse); every recursive call consumes at
least one input character, so fuel bounded below by the input length makes
the parser total with JSON.parse semantics. -/
def parseValueF : Nat → List Char → Option (Json × List Char)
  | 0, _ => none
  | Nat.succ fuel, l =>
    match l.dropWhile isJsonWs with
    | [] => none
    | c :: rest =>
      if c = 'n' then
        match rest with
        | 'u' :: 'l' :: 'l' :: r => some (Json.null, r)
        | _ => none
      else if c = 't' then
        match rest with
        | 'r' :: 'u' :: 'e' :: r => some (Json.bool true, r)
        | _ => none
      else if c = 'f' then
        match rest with
        | 'a' :: 'l' :: 's' :: 'e' :: r => some (Json.bool false, r)
        | _ => none
      else if c = '"' then
        match parseStringBody rest with
        | some (cs, r) => some (Json.str (String.mk cs), r)
        | none => none
      else if c = '[' then
        match rest.dropWhile isJsonWs with
        | ']' :: r => some (Json.arr [], r)
        | _ => parseElementsF fuel rest []
      else if c = '\x7b' then
        match rest.dropWhile isJsonWs with
        | '\x7d' :: r => some (Json.obj [], r)
        | _ => parseMembersF fuel rest []
      else
        match parseNumber (c :: rest) with
        | some (lit, r) => some (Json.num (String.mk lit), r)
        | none => none

/-- Array elements: value, then comma-continue or closing bracket. -/
def parseElementsF : Nat → List Char → List Json → Option (Json × List Char)
  | 0, _, _ => none
  | Nat.succ fuel, l, acc =>
    match parseValueF fuel l with
    | none => none
    | some (v, r) =>
      match r.dropWhile isJsonWs with
      | ',' :: r2 => parseElementsF fuel r2 (acc ++ [v])
      | ']' :: r2 => some (Json.arr (acc ++ [v]), r2)
      | _ => none

/-- Object members: quoted key, colon, value (duplicate keys last-wins, as
JSON.parse does), then comma-continue or closing brace. -/
def parseMembersF : Nat → List Char → List (String × Json) → Option (Json × List Char)
  | 0, _, _ => none
  | Nat.succ fuel, l, acc =>
    match l.dropWhile isJsonWs with
    | '"' :: rest =>
      match parseStringBody rest with
      | none => none
      | some (kcs, r1) =>
        match r1.dropWhile isJsonWs with
        | ':' :: r2 =>
          (match parseValueF fuel r2 with
           | none => none
           | some (v, r3) =>
             match r3.dropWhile isJsonWs with
             | ',' :: r4 => parseMembersF fuel r4 (objSet acc (String.mk kcs) v)
             | '\x7d' :: r4 => some (Json.obj (objSet acc (String.mk kcs) v), r4)
             | _ => none)
        | _ => none
    | _ => none

end

/-- `JSON.parse`: parse one value and require only whitespace after it. -/
def parseJson (s : String) : Option Json :=
  match parseValueF (s.data.length + 1) s.data with
  | some (v, rest) => if rest.dropWhile isJsonWs = [] then some v else none
  | none => none

/-- `tryParseJson` from the helpers: JSON.parse with parse failure collapsed
to the JS value null (the source returns `null` both for a failed parse and
for a successful parse of the literal null). -/
def jsTryParse (s : String) : Json :=
  (parseJson s).getD Json.null

/-- An HTTP response as the validator sees it: status code and text body. -/
structure HttpResponse where
  status : Nat
  body : String

/-- `Response.ok` (Fetch): status in the inclusive range 200..299. -/
def responseOk (r : HttpResponse) : Bool :=
  decide (200 ≤ r.status) && decide (r.status ≤ 299)

/-- The error record thrown by the HTTP layer (HttpValidationError fields). -/
structure HttpErr where
  message : String
  url : String
  statusCode : Nat
  deriving DecidableEq, Repr

/-- `readErrorBody`: empty body stays empty; a JSON object body yields its
string `error` field, else its string `message` field, else the raw text;
an unparseable or non-object body yields the raw text. -/
def readErrorBody (body : String) : String :=
  if body = "" then ""
  else
    match parseJson body with
    | none => body
    | some (Json.obj fields) =>
      (match lookupField fields "error" with
       | some (Json.str m) => m
       | _ =>
         match lookupField fields "message" with
         | some (Json.str m) => m
         | _ => body)
    | some _ => body

/-- `runHttpValidator`: POST the serialized candidate to the endpoint (the
transport is the collaborator `fetch`); 2xx passes, anything else throws an
HttpValidationError carrying the extracted message (falling back to
"Validator returned N" when the extracted message is empty) and status. -/
def runHttpValidatorM (data : Json) (url : String)
    (fetch : String → String → HttpResponse) : Except HttpErr Unit :=
  let response := fetch url (jsonStringify data)
  if responseOk response then Except.ok ()
  else
    let msg0 := readErrorBody response.body
    let message := if msg0 = "" then "Validator returned " ++ toString response.status else msg0
    Except.error ⟨message, url, response.status⟩

/-- JS string trim whitespace (the characters relevant to this code base). -/
def jsIsWs (c : Char) : Bool :=
  c = ' ' || c = '\t' || c = '\n' || c = '\r' || c = '\x0b' || c = '\x0c'

/-- `String.trim` from JS. -/
def jsTrim (s : String) : String :=
  String.mk (((s.data.dropWhile jsIsWs).reverse.dropWhile jsIsWs).reverse)

/-- `getTextContent`: text blocks joined with newlines, trimmed. -/
def getTextContent (m : AssistantMessage) : String :=
  jsTrim (String.intercalate "\n" (m.content.filterMap (fun b =>
    match b with
    | ContentBlock.text s => some s
    | _ => none)))

/-- `findToolCall`: the first tool-call content block with the given name. -/
def findToolCall (m : AssistantMessage) (toolName : String) : Option ToolCallBlock :=
  m.content.findSome? (fun b =>
    match b with
    | ContentBlock.toolCall tc => if tc.name = toolName then some tc else none
    | _ => none)

/-- The remainder after the first ``` fence, if any. -/
def findFence : List Char → Option (List Char)
  | '`' :: '`' :: '`' :: rest => some rest
  | _ :: rest => findFence rest
  | [] => none

/-- Drop an optional case-insensitive `json` tag after the opening fence. -/
def dropJsonTag (l : List Char) : List Char :=
  match l with
  | a :: b :: c :: d :: rest =>
    if (a = 'j' || a = 'J') && (b = 's' || b = 'S') && (c = 'o' || c = 'O')
        && (d = 'n' || d = 'N') then rest
    else l
  | _ => l

/-- The content before the next ``` fence; none if the fence never closes. -/
def upToFence : List Char → Option (List Char)
  | '`' :: '`' :: '`' :: _ => some []
  | c :: rest => (upToFence rest).map (fun t => c :: t)
  | [] => none

/-- The fenced-code-block candidate of `collectJsonCandidates`. -/
def extractFencedJson (text : String) : Option String :=
  match findFence text.data with
  | none => none
  | some after1 =>
    match upToFence (dropJsonTag after1) with
    | none => none
    | some content => some (jsTrim (String.mk content))

/-- `indexOf` for a single character. -/
def idxOf (c : Char) : List Char → Option Nat
  | [] => none
  | x :: rest => if x = c then some 0 else (idxOf c rest).map (fun i => i + 1)

/-- `lastIndexOf` for a single character. -/
def lastIdxOf (c : Char) (l : List Char) : Option Nat :=
  (idxOf c l.reverse).map (fun i => l.length - 1 - i)

/-- `sliceBetween`: the trimmed span from the first `o` to the last `c`. -/
def sliceBetween (text : String) (o c : Char) : Option String :=
  match idxOf o text.data, lastIdxOf c text.data with
  | some s, some e =>
    if e ≤ s then none
    else some (jsTrim (String.mk ((text.data.drop s).take (e - s + 1))))
  | _, _ => none

/-- `collectJsonCandidates`: fenced block (if non-empty), the raw text, the
widest brace span, the widest bracket span. -/
def collectJsonCandidates (text : String) : List String :=
  (match extractFencedJson text with
   | some f => if f = "" then [] else [f]
   | none => []) ++
  [text] ++
  (match sliceBetween text '\x7b' '\x7d' with
   | some s => [s]
   | none => []) ++
  (match sliceBetween text '[' ']' with
   | some s => [s]
   | none => [])

/-- Whether a JSON value is the JS null sentinel. -/
def Json.isNull : Json → Bool
  | Json.null => true
  | _ => false

/-- First candidate whose tryParseJson result is not JS null. -/
def firstNonNull : List String → Json
  | [] => Json.null
  | c :: rest =>
    match parseJson c with
    | some v => if v.isNull then firstNonNull rest else v
    | none => firstNonNull rest

/-- `parseJsonFromText`: JS-null for empty text, else the first candidate
that parses to a non-null value (a successful parse of the literal null is
indistinguishable from a failed parse, and yields JS null). -/
def parseJsonFromText (m : AssistantMessage) : Json :=
  let text := getTextContent m
  if text = "" then Json.null
  else firstNonNull (collectJsonCandidates text)

/-- `buildMessages`: a structured conversation input is returned as the
working message array itself (the caller's array, aliased); a string input
becomes one fresh user message, with attachments prepended as blocks. -/
def buildMessages (input : Sum String (List Message)) (attachments : List ContentBlock)
    (now : Nat) : List Message :=
  match input with
  | Sum.inr msgs => msgs
  | Sum.inl s =>
    match attachments with
    | [] => [Message.user (UserContent.plain s) now]
    | _ => [Message.user (UserContent.blocks (ContentBlock.text s :: attachments)) now]

/-- `accumulateUsage`. -/
def addUsage (a b : Usage) : Usage :=
  ⟨a.inputTokens + b.inputTokens, a.outputTokens + b.outputTokens,
   a.totalTokens + b.totalTokens, a.cost + b.cost⟩

/-- Zero usage. -/
def usageZero : Usage := ⟨0, 0, 0, 0⟩

/-- `createContinueMessage`. -/
def createContinueMessage (now : Nat) : Message :=
  Message.user (UserContent.plain
    "Continue. Call the 'respond' tool when ready with your structured response.") now

/-- `createSchemaToolResult`. -/
def createSchemaToolResult (toolCallId : String) (emsg : String) (now : Nat) : Message :=
  Message.toolResult toolCallId "respond" ("Validation error: " ++ emsg) true now

/-- `createSchemaFeedbackMessage`. -/
def createSchemaFeedbackMessage (emsg : String) (now : Nat) : Message :=
  Message.user (UserContent.plain
    ("Validation error in your previous JSON output:\n" ++ emsg
      ++ "\n\nContinue. Call the 'respond' tool when ready with your corrected structured response.")) now

/-- Errors surfaced by the extraction loop. -/
inductive XError where
  | extractErr (msg : String)
  | abortErr (msg : String)
  | maxTurnsErr (turns : Nat) (lastErrorMsg : Option String)
  deriving DecidableEq, Repr

/-- Progress events of the extraction loop (streaming deltas are internal
to the Generation Service collaborator and not modelled). -/
inductive XEvent where
  | start (maxTurns : Nat)
  | warning (code : String)
  | cacheHit (key : String) (age : Nat)
  | cacheMiss (key : String)
  | cacheSet (key : String)
  | turnStart (turn : Nat)
  | llmStart
  | llmEnd
  | toolCall (name : String)
  | jsonExtracted (source : String)
  | thinkingEv (text : String)
  | validation (e : VEvent)
  | turnEnd (turn : Nat) (hasResult : Bool)
  | completeEv (turns : Nat)
  | errorEv (turns : Nat)
  deriving DecidableEq, Repr

/-- The terminal success value. -/
structure ExtractResultM where
  data : Json
  turns : Nat
  usage : Usage

/-- Observable outcome of a run: the result or error, the ordered event
list, and the final working conversation array (which is the caller's own
array when the input was a structured conversation). -/
structure RunOutcome where
  result : Except XError ExtractResultM
  events : List XEvent
  messages : List Message

/-- Input text used for the cache key: the string itself, or the
JSON-serialized conversation. -/
def inputTextOf : Sum String (List Message) → String
  | Sum.inl s => s
  | Sum.inr msgs => jsonStringify (Json.arr (msgs.map messageToJson))

/-- `cacheTtl !== undefined && age > cacheTtl`. -/
def ttlExpired : Option Nat → Nat → Bool
  | some t, age => decide (age > t)
  | none, _ => false

/-- `resolveCache`: no caching when the flag is off, or when function
validators are present without revalidate; otherwise the key (custom or
computed), the store (injected or the shared default), TTL and revalidate
flag. -/
def resolveCacheM (input : Sum String (List Message)) (o : ExtractOptions)
    (defaultStore : MemoryCache CacheEntry) :
    Option (String × MemoryCache CacheEntry × Option Nat × Bool) :=
  match o.cache with
  | none => none
  | some copts =>
    let revalidate := copts.revalidate.getD false
    if (o.validate.isSome || o.validateAsync.isSome) && !revalidate then none
    else
      let store := copts.store.getD defaultStore
      let itext := inputTextOf input
      let key :=
        match copts.keyFn with
        | some f => f itext
        | none => computeCacheKey itext o
      some (key, store, copts.ttl, revalidate)

/-- The caller's view of a structured conversation input (empty for string
input, which the caller does not share). -/
def callerView : Sum String (List Message) → List Message
  | Sum.inl _ => []
  | Sum.inr msgs => msgs

/-- `options.thinking && options.thinking !== "off"`. -/
def thinkingRequestedB : Option String → Bool
  | none => false
  | some t => !(t = "off") && !(t = "")

/-- Per-run context threaded through the turn loop. -/
structure LoopCtx where
  o : ExtractOptions
  llm : StreamOracle
  schemaValidate : Json → Except String Json
  runCmd : String → Json → Except String Unit
  runHttp : String → Json → Except String Unit
  abortedAt : Nat → Bool
  now : Nat
  unwrapKey : Option String
  maxTurns : Nat

/-- The turn loop of `runExtraction` (`for turn = 1..maxTurns`): abort
check, Generation Service call, candidate extraction (tool call first, then
JSON from text), schema validation with unwrap, validation pipeline,
feedback-and-retry on failures, cache write and completion on success,
turns-exhausted error when the fuel runs out. -/
def runTurns (ctx : LoopCtx) :
    Nat → Nat → List Message → Usage → Option String →
    Option (String × MemoryCache CacheEntry) → RunOutcome
  | _, 0, messages, _, lastErr, _ =>
    ⟨Except.error (XError.maxTurnsErr ctx.maxTurns lastErr),
     [XEvent.errorEv ctx.maxTurns], messages⟩
  | turn, Nat.succ rem, messages, usage, lastErr, store =>
    if ctx.abortedAt turn then
      ⟨Except.error (XError.abortErr "Extraction aborted"),
       [XEvent.errorEv (turn - 1)], messages⟩
    else
      match ctx.llm turn messages with
      | Except.error emsg =>
        ⟨Except.error (XError.extractErr emsg),
         [XEvent.turnStart turn, XEvent.llmStart, XEvent.errorEv turn], messages⟩
      | Except.ok assistant =>
        let usage2 := addUsage usage assistant.usage
        let toolCall := findToolCall assistant "respond"
        let headEvs := [XEvent.turnStart turn, XEvent.llmStart, XEvent.llmEnd]
          ++ (match toolCall with
              | some tc => [XEvent.toolCall tc.name, XEvent.jsonExtracted "tool_call"]
              | none => [])
        let args :=
          match toolCall with
          | some tc => tc.arguments
          | none => parseJsonFromText assistant
        let textEvs :=
          match toolCall with
          | some _ => []
          | none => if args.isNull then [] else [XEvent.jsonExtracted "text"]
        if args.isNull then
          let next := runTurns ctx (turn + 1) rem
            (messages ++ [Message.assistant assistant, createContinueMessage ctx.now])
            usage2 lastErr store
          ⟨next.result,
           headEvs ++ [XEvent.thinkingEv (getTextContent assistant),
             XEvent.turnEnd turn false] ++ next.events,
           next.messages⟩
        else
          let schemaOutcome : Except String Json :=
            match ctx.schemaValidate (normalizeToolArguments args ctx.unwrapKey) with
            | Except.error e => Except.error e
            | Except.ok validated => unwrapToolArguments validated ctx.unwrapKey
          match schemaOutcome with
          | Except.error emsg =>
            let fb :=
              match toolCall with
              | some tc => createSchemaToolResult tc.id emsg ctx.now
              | none => createSchemaFeedbackMessage emsg ctx.now
            let next := runTurns ctx (turn + 1) rem
              (messages ++ [Message.assistant assistant, fb]) usage2 (some emsg) store
            ⟨next.result,
             headEvs ++ textEvs
               ++ [XEvent.validation (VEvent.start VLayer.schema),
                   XEvent.validation (VEvent.fail VLayer.schema emsg),
                   XEvent.turnEnd turn false] ++ next.events,
             next.messages⟩
          | Except.ok data =>
            let vr := runValidators data ctx.o ctx.runCmd ctx.runHttp
            match vr.2 with
            | Except.error emsg =>
              let fb :=
                match toolCall with
                | some tc => createSchemaToolResult tc.id emsg ctx.now
                | none => createSchemaFeedbackMessage emsg ctx.now
              let next := runTurns ctx (turn + 1) rem
                (messages ++ [Message.assistant assistant, fb]) usage2 (some emsg) store
              ⟨next.result,
               headEvs ++ textEvs
                 ++ [XEvent.validation (VEvent.start VLayer.schema),
                     XEvent.validation (VEvent.pass VLayer.schema)]
                 ++ vr.1.map XEvent.validation
                 ++ [XEvent.turnEnd turn false] ++ next.events,
               next.messages⟩
            | Except.ok _ =>
              let setEvs :=
                match store with
                | some (key, _) => [XEvent.cacheSet key]
                | none => []
              ⟨Except.ok ⟨data, turn, usage2⟩,
               headEvs ++ textEvs
                 ++ [XEvent.validation (VEvent.start VLayer.schema),
                     XEvent.validation (VEvent.pass VLayer.schema)]
                 ++ vr.1.map XEvent.validation
                 ++ [XEvent.turnEnd turn true] ++ setEvs ++ [XEvent.completeEv turn],
               messages⟩

/-- The main flow after the cache check: build the working messages (the
caller's array itself for conversation input), normalize the tool schema,
reject if no stream function is configured, else run the turn loop. -/
def mainFlow (input : Sum String (List Message)) (o : ExtractOptions) (maxTurns : Nat)
    (model : ModelInfo) (schemaValidate : Json → Except String Json)
    (runCmd runHttp : String → Json → Except String Unit)
    (abortedAt : Nat → Bool) (now : Nat) (evPrefix : List XEvent)
    (cache : Option (String × MemoryCache CacheEntry)) : RunOutcome :=
  let messages := buildMessages input o.attachments now
  let ns := normalizeToolSchema model o.schema
  match o.streamFn with
  | none =>
    ⟨Except.error (XError.extractErr "Missing required option \"streamFn\"."),
     evPrefix ++ [XEvent.errorEv 0], messages⟩
  | some llm =>
    let ctx : LoopCtx :=
      ⟨o, llm, schemaValidate, runCmd, runHttp, abortedAt, now, ns.2, maxTurns⟩
    let r := runTurns ctx 1 maxTurns messages usageZero none cache
    ⟨r.result, evPrefix ++ r.events, r.messages⟩

/-- `runExtraction`: start event, model check, abort check, thinking
warning, cache check (fresh hit returns immediately, with revalidation and
eviction when requested), then the main flow. The Generation Service,
schema validator and external validators are collaborator functions;
`abortedAt` is the cancellation token sampled at checkpoint indices and
`now` the clock. -/
def runExtraction (input : Sum String (List Message)) (o : ExtractOptions) (maxTurns : Nat)
    (schemaValidate : Json → Except String Json)
    (runCmd runHttp : String → Json → Except String Unit)
    (abortedAt : Nat → Bool) (now : Nat)
    (defaultStore : MemoryCache CacheEntry) : RunOutcome :=
  let ev0 := [XEvent.start maxTurns]
  match o.model with
  | none =>
    ⟨Except.error (XError.extractErr "Missing required option \"model\"."),
     ev0 ++ [XEvent.errorEv 0], callerView input⟩
  | some model =>
    if abortedAt 0 then
      ⟨Except.error (XError.abortErr "Extraction aborted"),
       ev0 ++ [XEvent.errorEv 0], callerView input⟩
    else
      let warnEvs :=
        if thinkingRequestedB o.thinking && !model.reasoning then
          [XEvent.warning "thinking_unsupported"]
        else []
      match resolveCacheM input o defaultStore with
      | some (key, store, ttl, revalidate) =>
        (match memGet store key with
         | (some entry, store1) =>
           if !(ttlExpired ttl (now - entry.timestamp)) then
             if revalidate then
               let vr := runValidators entry.data o runCmd runHttp
               (match vr.2 with
                | Except.ok _ =>
                  ⟨Except.ok ⟨entry.data, entry.turns, entry.usage⟩,
                   ev0 ++ warnEvs ++ vr.1.map XEvent.validation
                     ++ [XEvent.cacheHit key (now - entry.timestamp),
                         XEvent.completeEv entry.turns],
                   callerView input⟩
                | Except.error _ =>
                  mainFlow input o maxTurns model schemaValidate runCmd runHttp abortedAt now
                    (ev0 ++ warnEvs ++ vr.1.map XEvent.validation ++ [XEvent.cacheMiss key])
                    (some (key, memDelete store1 key)))
             else
               ⟨Except.ok ⟨entry.data, entry.turns, entry.usage⟩,
                ev0 ++ warnEvs
                  ++ [XEvent.cacheHit key (now - entry.timestamp),
                      XEvent.completeEv entry.turns],
                callerView input⟩
           else
             mainFlow input o maxTurns model schemaValidate runCmd runHttp abortedAt now
               (ev0 ++ warnEvs ++ [XEvent.cacheMiss key]) (some (key, store1))
         | (none, store1) =>
           mainFlow input o maxTurns model schemaValidate runCmd runHttp abortedAt now
             (ev0 ++ warnEvs ++ [XEvent.cacheMiss key]) (some (key, store1)))
      | none =>
        mainFlow input o maxTurns model schemaValidate runCmd runHttp abortedAt now
          (ev0 ++ warnEvs) none

/-- Proof-support: serialized form of a nullable string field of the key
data, followed by the remainder of the serialization. -/
def optValWithRest (o : Option String) (rest : List Char) : List Char :=
  match o with
  | none => 'n' :: 'u' :: 'l' :: 'l' :: rest
  | some s => '"' :: (s.data.flatMap escapeChar ++ '"' :: rest)

/- ======================== THEOREMS ======================== -/

/-- C2 counterexample: for the value v = \x7b "value": 0 \x7d, wrapping under
the unwrap key "value" leaves v unchanged (it already carries the key), and
unwrapping then yields the inner 0, not v itself — so unwrap(wrap(v)) ≠ v. -/
theorem C2_counterexample :
    unwrapToolArguments
        (normalizeToolArguments (Json.obj [("value", Json.num "0")]) (some "value"))
        (some "value")
      = Except.ok (Json.num "0")
    ∧ Json.num "0" ≠ Json.obj [("value", Json.num "0")] :=
  ⟨rfl, fun h => Json.noConfusion h⟩

/-- C2 (amended): for every value v that is not an object already carrying the
unwrap key, unwrap(wrap(v)) = v; and for an object that already carries the
key (which wrapping leaves unchanged), unwrapping yields the value stored
under the key. -/
theorem C2_wrap_unwrap_roundtrip :
    (∀ (v : Json) (key : String),
        (∀ fields, v = Json.obj fields → hasKey fields key = false) →
        unwrapToolArguments (normalizeToolArguments v (some key)) (some key) = Except.ok v)
    ∧ (∀ (fields : List (String × Json)) (key : String) (v : Json),
        lookupField fields key = some v →
        normalizeToolArguments (Json.obj fields) (some key) = Json.obj fields
        ∧ unwrapToolArguments (normalizeToolArguments (Json.obj fields) (some key)) (some key)
            = Except.ok v) := by
  constructor
  · intro v key h
    cases v with
    | obj fields =>
      have hk := h fields rfl
      simp [normalizeToolArguments, hk, unwrapToolArguments, lookupField]
    | null => simp [normalizeToolArguments, unwrapToolArguments, lookupField]
    | bool b => simp [normalizeToolArguments, unwrapToolArguments, lookupField]
    | num l => simp [normalizeToolArguments, unwrapToolArguments, lookupField]
    | str s => simp [normalizeToolArguments, unwrapToolArguments, lookupField]
    | arr xs => simp [normalizeToolArguments, unwrapToolArguments, lookupField]
  · intro fields key v h
    have hk : hasKey fields key = true := by simp [hasKey, h]
    refine ⟨by simp [normalizeToolArguments, hk], ?_⟩
    simp [normalizeToolArguments, hk, unwrapToolArguments, h]

/-- C2 witness: the amended roundtrip evaluated at an array value (which gets
wrapped) and at a pre-wrapped object. -/
theorem C2_witness :
    unwrapToolArguments (normalizeToolArguments (Json.arr []) (some "value")) (some "value")
      = Except.ok (Json.arr [])
    ∧ unwrapToolArguments
        (normalizeToolArguments (Json.obj [("value", Json.bool true)]) (some "value"))
        (some "value")
      = Except.ok (Json.bool true) :=
  ⟨C2_wrap_unwrap_roundtrip.1 (Json.arr []) "value" (fun _ h => Json.noConfusion h),
   (C2_wrap_unwrap_roundtrip.2 [("value", Json.bool true)] "value" (Json.bool true) rfl).2⟩

theorem evictOldest_length_le {E : Type} (N : Nat) :
    ∀ l : List (String × E), (∀ p ∈ l, p.1 ≠ "") → (evictOldest N l).length ≤ N := by
  intro l
  induction l with
  | nil => intro _; simp [evictOldest]
  | cons x rest ih =>
    intro hk
    obtain ⟨k, e⟩ := x
    rw [evictOldest]
    by_cases h : ((k, e) :: rest).length > N
    · rw [if_pos h]
      have hne : k ≠ "" := hk (k, e) (List.mem_cons_self _ _)
      rw [if_neg hne]
      exact ih (fun p hp => hk p (List.mem_cons_of_mem _ hp))
    · rw [if_neg h]; exact Nat.le_of_not_lt h

theorem evictOldest_mem {E : Type} (N : Nat) :
    ∀ l : List (String × E), ∀ p ∈ evictOldest N l, p ∈ l := by
  intro l
  induction l with
  | nil => intro p hp; simp [evictOldest] at hp
  | cons x rest ih =>
    intro p hp
    obtain ⟨k, e⟩ := x
    rw [evictOldest] at hp
    by_cases h : ((k, e) :: rest).length > N
    · rw [if_pos h] at hp
      by_cases hke : k = ""
      · rw [if_pos hke] at hp; exact hp
      · rw [if_neg hke] at hp
        exact List.mem_cons_of_mem _ (ih p hp)
    · rw [if_neg h] at hp; exact hp

theorem eraseKey_mem {E : Type} (key : String) :
    ∀ l : List (String × E), ∀ p ∈ eraseKey l key, p ∈ l := by
  intro l
  induction l with
  | nil => intro p hp; simp [eraseKey] at hp
  | cons x rest ih =>
    intro p hp
    obtain ⟨k, v⟩ := x
    by_cases hk : k = key
    · simp only [eraseKey, if_pos hk] at hp
      exact List.mem_cons_of_mem _ hp
    · simp only [eraseKey, if_neg hk] at hp
      rcases List.mem_cons.mp hp with h | h
      · rw [h]; exact List.mem_cons_self _ _
      · exact List.mem_cons_of_mem _ (ih p h)

theorem alistGet_some_mem {E : Type} (key : String) (e : E) :
    ∀ l : List (String × E), alistGet l key = some e → (key, e) ∈ l := by
  intro l
  induction l with
  | nil => intro h; simp [alistGet] at h
  | cons x rest ih =>
    intro h
    obtain ⟨k, v⟩ := x
    by_cases hk : k = key
    · simp only [alistGet, if_pos hk] at h
      injection h with h2
      subst hk
      subst h2
      exact List.mem_cons_self _ _
    · simp only [alistGet, if_neg hk] at h
      exact List.mem_cons_of_mem _ (ih h)

theorem eraseKey_of_none {E : Type} (key : String) :
    ∀ l : List (String × E), alistGet l key = none → eraseKey l key = l := by
  intro l
  induction l with
  | nil => intro _; rfl
  | cons x rest ih =>
    intro h
    obtain ⟨k, v⟩ := x
    by_cases hk : k = key
    · simp [alistGet, hk] at h
    · simp only [alistGet, if_neg hk] at h
      simp [eraseKey, hk, ih h]

theorem eraseKey_length_le {E : Type} (key : String) :
    ∀ l : List (String × E), (eraseKey l key).length ≤ l.length := by
  intro l
  induction l with
  | nil => simp [eraseKey]
  | cons x rest ih =>
    obtain ⟨k, v⟩ := x
    by_cases hk : k = key
    · simp [eraseKey, hk]
    · simp only [eraseKey, if_neg hk, List.length_cons]
      omega

theorem eraseKey_length_of_some {E : Type} (key : String) (e : E) :
    ∀ l : List (String × E), alistGet l key = some e →
      (eraseKey l key).length + 1 = l.length := by
  intro l
  induction l with
  | nil => intro h; simp [alistGet] at h
  | cons x rest ih =>
    intro h
    obtain ⟨k, v⟩ := x
    by_cases hk : k = key
    · simp [eraseKey, hk]
    · simp only [alistGet, if_neg hk] at h
      simp only [eraseKey, if_neg hk, List.length_cons]
      rw [← ih h]

theorem evictOldest_of_le {E : Type} (N : Nat) (l : List (String × E))
    (h : l.length ≤ N) : evictOldest N l = l := by
  cases l with
  | nil => rfl
  | cons x rest =>
    obtain ⟨k, e⟩ := x
    rw [evictOldest, if_neg (by omega : ¬ ((k, e) :: rest).length > N)]

theorem evictOldest_getLast {E : Type} (N : Nat) (hN : 0 < N) :
    ∀ l : List (String × E), l ≠ [] → (evictOldest N l).getLast? = l.getLast? := by
  intro l
  induction l with
  | nil => intro h; exact absurd rfl h
  | cons x rest ih =>
    intro _
    obtain ⟨k, e⟩ := x
    rw [evictOldest]
    by_cases hlen : ((k, e) :: rest).length > N
    · rw [if_pos hlen]
      by_cases hk : k = ""
      · rw [if_pos hk]
      · rw [if_neg hk]
        have hrest : rest ≠ [] := by
          intro hre
          rw [hre] at hlen
          simp at hlen
          omega
        rw [ih hrest]
        cases rest with
        | nil => exact absurd rfl hrest
        | cons y ys => rfl
    · rw [if_neg hlen]

theorem applyCacheOp_maxSize {E : Type} (c : MemoryCache E) (op : CacheOp E) :
    (applyCacheOp c op).maxSize = c.maxSize := by
  cases op with
  | get key =>
    simp only [applyCacheOp, memGet]
    cases alistGet c.entries key <;> rfl
  | set key e => rfl
  | delete key => rfl
  | clear => rfl

theorem applyCacheOp_invariant {E : Type} (c : MemoryCache E) (op : CacheOp E)
    (hop : opSetKeyOk op = true)
    (hkeys : ∀ p ∈ c.entries, p.1 ≠ "") (hlen : c.entries.length ≤ c.maxSize) :
    (∀ p ∈ (applyCacheOp c op).entries, p.1 ≠ "")
    ∧ (applyCacheOp c op).entries.length ≤ c.maxSize := by
  cases op with
  | get key =>
    simp only [applyCacheOp, memGet]
    cases hg : alistGet c.entries key with
    | none => exact ⟨hkeys, hlen⟩
    | some e =>
      constructor
      · intro p hp
        rcases List.mem_append.mp hp with h | h
        · exact hkeys p (eraseKey_mem key c.entries p h)
        · have hpe : p = (key, e) := by simpa using h
          rw [hpe]
          exact hkeys (key, e) (alistGet_some_mem key e c.entries hg)
      · simp only [List.length_append, List.length_cons, List.length_nil]
        have := eraseKey_length_of_some key e c.entries hg
        omega
  | set key e =>
    have hkey : key ≠ "" := by
      intro hcon
      rw [hcon] at hop
      simp [opSetKeyOk] at hop
    simp only [applyCacheOp, memSet]
    have hall : ∀ p ∈ eraseKey c.entries key ++ [(key, e)], p.1 ≠ "" := by
      intro p hp
      rcases List.mem_append.mp hp with h | h
      · exact hkeys p (eraseKey_mem key c.entries p h)
      · have hpe : p = (key, e) := by simpa using h
        rw [hpe]
        exact hkey
    constructor
    · intro p hp
      exact hall p (evictOldest_mem c.maxSize _ p hp)
    · exact evictOldest_length_le c.maxSize _ hall
  | delete key =>
    refine ⟨?_, le_trans (eraseKey_length_le key c.entries) hlen⟩
    intro p hp
    exact hkeys p (eraseKey_mem key c.entries p hp)
  | clear =>
    simp [applyCacheOp, memClear]

/-- C7 counterexample: the claim as stated is false of the program. With
configured maximum size 1, setting key `""` and then key `"a"` leaves two
entries and evicts nothing: the eviction loop reads the oldest key `""`,
finds it falsy, and stops, so the store exceeds its configured bound and the
least-recently-touched entry survives. -/
theorem C7_counterexample :
    (applyCacheOps [CacheOp.set "" (1 : Nat), CacheOp.set "a" 2]
        (createMemoryCache (some 1))).entries = [("", 1), ("a", 2)]
    ∧ ¬ ((applyCacheOps [CacheOp.set "" (1 : Nat), CacheOp.set "a" 2]
        (createMemoryCache (some 1))).entries.length ≤ 1) :=
  ⟨rfl, by decide⟩

/-- C7 (amended): (1) starting from an empty store of configured maximum
size N, any sequence of get/set/delete/clear operations whose sets all
write non-empty keys leaves at most N entries (the eviction loop stops at a
falsy oldest key, so an empty-string key defeats the bound — see the
counterexample); (2) a set of a fresh key into a full store whose keys are
all non-empty evicts exactly the oldest (head) binding; (3) a get of a
present key returns it and moves it to the most-recently-used end,
preserving the other bindings; (4) a set always leaves the written key at
the most-recently-used end. -/
theorem C7_memory_cache_lru :
    (∀ (E : Type) (N : Nat) (ops : List (CacheOp E)),
        (∀ op ∈ ops, opSetKeyOk op = true) →
        (applyCacheOps ops (createMemoryCache (some N))).entries.length ≤ N)
    ∧ (∀ (E : Type) (c : MemoryCache E) (k : String) (e : E),
        (∀ p ∈ c.entries, p.1 ≠ "") →
        c.entries.length = c.maxSize → 0 < c.maxSize → alistGet c.entries k = none →
        (memSet c k e).entries = c.entries.tail ++ [(k, e)])
    ∧ (∀ (E : Type) (c : MemoryCache E) (k : String) (e : E),
        alistGet c.entries k = some e →
        (memGet c k).1 = some e
        ∧ (memGet c k).2.entries = eraseKey c.entries k ++ [(k, e)])
    ∧ (∀ (E : Type) (c : MemoryCache E) (k : String) (e : E),
        0 < c.maxSize → ((memSet c k e).entries).getLast? = some (k, e)) := by
  refine ⟨?_, ?_, ?_, ?_⟩
  · intro E N ops hops
    have main : ∀ (ops : List (CacheOp E)) (c : MemoryCache E),
        (∀ op ∈ ops, opSetKeyOk op = true) →
        c.maxSize = N → (∀ p ∈ c.entries, p.1 ≠ "") → c.entries.length ≤ N →
        (applyCacheOps ops c).entries.length ≤ N := by
      intro ops
      induction ops with
      | nil => intro c _ _ _ hlen; exact hlen
      | cons op rest ih =>
        intro c hops hmax hkeys hlen
        have hinv := applyCacheOp_invariant c op (hops op (List.mem_cons_self _ _))
          hkeys (by omega)
        refine ih (applyCacheOp c op) (fun o ho => hops o (List.mem_cons_of_mem _ ho))
          ?_ hinv.1 ?_
        · rw [applyCacheOp_maxSize]; exact hmax
        · have := hinv.2; omega
    exact main ops (createMemoryCache (some N)) hops rfl
      (by simp [createMemoryCache]) (by simp [createMemoryCache])
  · intro E c k e hkeys hlen hpos habs
    simp only [memSet, eraseKey_of_none k c.entries habs]
    cases hc : c.entries with
    | nil =>
      rw [hc] at hlen
      simp at hlen
      omega
    | cons x rest =>
      obtain ⟨k0, e0⟩ := x
      rw [hc] at hlen
      simp only [List.cons_append, List.tail_cons]
      rw [evictOldest]
      have hgt : ((k0, e0) :: (rest ++ [(k, e)])).length > c.maxSize := by
        simp only [List.length_cons, List.length_append, List.length_nil] at hlen ⊢
        omega
      rw [if_pos hgt]
      have hk0 : k0 ≠ "" := by
        have := hkeys (k0, e0) (by rw [hc]; exact List.mem_cons_self _ _)
        exact this
      rw [if_neg hk0]
      apply evictOldest_of_le
      simp only [List.length_cons, List.length_append, List.length_nil] at hlen ⊢
      omega
  · intro E c k e h
    simp [memGet, h]
  · intro E c k e hpos
    simp only [memSet]
    have hne : eraseKey c.entries k ++ [(k, e)] ≠ [] := by simp
    rw [evictOldest_getLast c.maxSize hpos _ hne]
    simp

/-- C7 witness: the amended bound, eviction and touch facts evaluated on
concrete stores of maximum size two whose keys are non-empty. -/
theorem C7_witness :
    (memSet (MemoryCache.mk 2 [("a", 1), ("b", 2)]) "c" (3 : Nat)).entries
      = [("b", 2), ("c", 3)]
    ∧ (memGet (MemoryCache.mk 2 [("a", 1), ("b", 2)]) "a").2.entries
      = [("b", 2), ("a", 1)]
    ∧ (applyCacheOps [CacheOp.set "a" (1 : Nat), CacheOp.set "b" 2, CacheOp.set "c" 3]
        (createMemoryCache (some 2))).entries.length ≤ 2
    ∧ ((memSet (MemoryCache.mk 2 [("a", 1), ("b", 2)]) "c" (3 : Nat)).entries).getLast?
      = some ("c", 3) := by
  refine ⟨?_, ?_, ?_, ?_⟩
  · exact C7_memory_cache_lru.2.1 Nat (MemoryCache.mk 2 [("a", 1), ("b", 2)]) "c" 3
      (by decide) rfl (by decide) rfl
  · exact ((C7_memory_cache_lru.2.2.1 Nat (MemoryCache.mk 2 [("a", 1), ("b", 2)]) "a" 1)
      rfl).2
  · exact C7_memory_cache_lru.1 Nat 2 [CacheOp.set "a" 1, CacheOp.set "b" 2, CacheOp.set "c" 3]
      (by decide)
  · exact C7_memory_cache_lru.2.2.2 Nat (MemoryCache.mk 2 [("a", 1), ("b", 2)]) "c" 3
      (by decide)

theorem strData_inj (s1 s2 : String) (h : s1.data = s2.data) : s1 = s2 := by
  cases s1
  cases s2
  exact congrArg String.mk h

theorem hexVal_hexDigit (n : Nat) (h : n < 16) : hexVal (hexDigit n) = some n := by
  interval_cases n <;> decide

theorem decEsc_step (c : Char) (tail : List Char) (k : List Char × List Char)
    (h : decEsc tail = some k) :
    decEsc (escapeChar c ++ tail) = some (c :: k.1, k.2) := by
  by_cases h1 : c = '"'
  · subst h1
    simp [escapeChar, decEsc, unescChar, h]
  · by_cases h2 : c = '\\'
    · subst h2
      simp [escapeChar, decEsc, unescChar, h]
    · by_cases h3 : c = '\x08'
      · subst h3
        simp [escapeChar, decEsc, unescChar, h]
      · by_cases h4 : c = '\x0c'
        · subst h4
          simp [escapeChar, decEsc, unescChar, h]
        · by_cases h5 : c = '\n'
          · subst h5
            simp [escapeChar, decEsc, unescChar, h]
          · by_cases h6 : c = '\r'
            · subst h6
              simp [escapeChar, decEsc, unescChar, h]
            · by_cases h7 : c = '\t'
              · subst h7
                simp [escapeChar, decEsc, unescChar, h]
              · by_cases h8 : c.toNat < 32
                · have hdiv : c.toNat / 16 < 16 := by omega
                  have hmod : c.toNat % 16 < 16 := Nat.mod_lt _ (by omega)
                  simp only [escapeChar, if_neg h1, if_neg h2, if_neg h3, if_neg h4,
                    if_neg h5, if_neg h6, if_neg h7, if_pos h8, List.cons_append,
                    List.nil_append]
                  simp only [decEsc]
                  simp only [hexVal_hexDigit _ hdiv, hexVal_hexDigit _ hmod]
                  have hv : hexVal '0' = some 0 := by decide
                  simp only [hv]
                  simp only [h, Option.map_some]
                  have hc : (((0 * 16 + 0) * 16 + c.toNat / 16) * 16 + c.toNat % 16)
                      = c.toNat := by omega
                  rw [hc, Char.ofNat_toNat]
                  simp
                · have hq : ¬ (c = '"') := h1
                  have hb : ¬ (c = '\\') := h2
                  simp only [escapeChar, if_neg h1, if_neg h2, if_neg h3, if_neg h4,
                    if_neg h5, if_neg h6, if_neg h7, if_neg h8, List.cons_append,
                    List.nil_append]
                  rw [decEsc.eq_def]
                  simp only [if_neg hq, if_neg hb, h, Option.map_some]
                  rfl

theorem decEsc_roundtrip (l : List Char) :
    ∀ rest : List Char, decEsc (l.flatMap escapeChar ++ '"' :: rest) = some (l, rest) := by
  induction l with
  | nil =>
    intro rest
    rw [decEsc.eq_def]
    simp
  | cons c cs ih =>
    intro rest
    have step := decEsc_step c (cs.flatMap escapeChar ++ '"' :: rest) (cs, rest) (ih rest)
    simpa [List.append_assoc] using step

theorem strLit_inj (s1 s2 : String) (r1 r2 : List Char)
    (h : s1.data.flatMap escapeChar ++ '"' :: r1 = s2.data.flatMap escapeChar ++ '"' :: r2) :
    s1 = s2 ∧ r1 = r2 := by
  have h2 := congrArg decEsc h
  rw [decEsc_roundtrip s1.data r1, decEsc_roundtrip s2.data r2] at h2
  have h3 := Option.some.inj h2
  exact ⟨strData_inj s1 s2 (congrArg Prod.fst h3), congrArg Prod.snd h3⟩

theorem dataAppend (s t : String) : (s ++ t).data = s.data ++ t.data := rfl

theorem dataMk (l : List Char) : (String.mk l).data = l := rfl

theorem cacheKeyData_data (i : String) (s : Json) (p m : String) (c u : Option String) :
    (cacheKeyData i s p m c u).data =
      "\x7b\"input\":\"".data
        ++ (i.data.flatMap escapeChar ++ '"' ::
          (",\"schema\":\"".data
            ++ ((jsonStringify s).data.flatMap escapeChar ++ '"' ::
              (",\"prompt\":\"".data
                ++ (p.data.flatMap escapeChar ++ '"' ::
                  (",\"model\":\"".data
                    ++ (m.data.flatMap escapeChar ++ '"' ::
                      (",\"validateCommand\":".data
                        ++ optValWithRest c
                          (",\"validateUrl\":".data
                            ++ optValWithRest u ['\x7d']))))))))) := by
  cases c <;> cases u <;>
    simp only [cacheKeyData, jsonStringify, stringifyFields, optStrToJson, encodeJsonString,
      optValWithRest, dataAppend, dataMk, List.append_assoc, List.cons_append,
      List.nil_append, List.singleton_append] <;>
    rfl

theorem optValWithRest_inj (o1 o2 : Option String) (r1 r2 : List Char)
    (h : optValWithRest o1 r1 = optValWithRest o2 r2) : o1 = o2 ∧ r1 = r2 := by
  cases o1 with
  | none =>
    cases o2 with
    | none =>
      simp only [optValWithRest] at h
      simp only [List.cons.injEq] at h
      exact ⟨rfl, h.2.2.2.2⟩
    | some s2 =>
      simp only [optValWithRest, List.cons.injEq] at h
      exact absurd h.1 (by decide)
  | some s1 =>
    cases o2 with
    | none =>
      simp only [optValWithRest, List.cons.injEq] at h
      exact absurd h.1 (by decide)
    | some s2 =>
      simp only [optValWithRest, List.cons.injEq] at h
      obtain ⟨hs, hr⟩ := strLit_inj s1 s2 r1 r2 h.2
      exact ⟨by rw [hs], hr⟩

theorem cacheKeyData_inj (i1 i2 : String) (s1 s2 : Json) (p1 p2 m1 m2 : String)
    (c1 c2 u1 u2 : Option String)
    (h : cacheKeyData i1 s1 p1 m1 c1 u1 = cacheKeyData i2 s2 p2 m2 c2 u2) :
    i1 = i2 ∧ jsonStringify s1 = jsonStringify s2 ∧ p1 = p2 ∧ m1 = m2
      ∧ c1 = c2 ∧ u1 = u2 := by
  have hd := congrArg String.data h
  rw [cacheKeyData_data, cacheKeyData_data] at hd
  have h1 := List.append_cancel_left hd
  obtain ⟨hi, h2⟩ := strLit_inj i1 i2 _ _ h1
  have h3 := List.append_cancel_left h2
  obtain ⟨hs, h4⟩ := strLit_inj (jsonStringify s1) (jsonStringify s2) _ _ h3
  have h5 := List.append_cancel_left h4
  obtain ⟨hp, h6⟩ := strLit_inj p1 p2 _ _ h5
  have h7 := List.append_cancel_left h6
  obtain ⟨hm, h8⟩ := strLit_inj m1 m2 _ _ h7
  have h9 := List.append_cancel_left h8
  obtain ⟨hc, h10⟩ := optValWithRest_inj c1 c2 _ _ h9
  have h11 := List.append_cancel_left h10
  obtain ⟨hu, _⟩ := optValWithRest_inj u1 u2 _ _ h11
  exact ⟨hi, hs, hp, hm, hc, hu⟩

theorem sha256Compress_length (hs block : List Nat) :
    (sha256Compress hs block).length = 8 := by
  simp [sha256Compress]

theorem foldl_compress_length (bs : List (List Nat)) :
    ∀ init : List Nat, (bs.foldl sha256Compress init).length = 8 ∨ bs = [] := by
  induction bs with
  | nil => intro init; exact Or.inr rfl
  | cons b rest ih =>
    intro init
    rw [List.foldl_cons]
    rcases ih (sha256Compress init b) with h | h
    · exact Or.inl h
    · subst h
      exact Or.inl (sha256Compress_length init b)

theorem foldl_digest_bound :
    ∀ (l : List Nat) (acc k : Nat), acc < 2 ^ k →
      l.foldl (fun a h => a * 4294967296 + w32 h) acc < 2 ^ (k + 32 * l.length) := by
  intro l
  induction l with
  | nil =>
    intro acc k h
    simpa using h
  | cons x t ih =>
    intro acc k h
    rw [List.foldl_cons]
    have hw : w32 x < 4294967296 := Nat.mod_lt _ (by norm_num)
    have h1 : acc * 4294967296 + w32 x < 2 ^ (k + 32) := by
      calc acc * 4294967296 + w32 x < (acc + 1) * 4294967296 := by
            have : (acc + 1) * 4294967296 = acc * 4294967296 + 4294967296 := by ring
            omega
        _ ≤ 2 ^ k * 4294967296 := Nat.mul_le_mul_right _ h
        _ = 2 ^ (k + 32) := by rw [pow_add]; norm_num
    have h3 := ih _ _ h1
    have hexp : (k + 32) + 32 * t.length = k + 32 * (x :: t).length := by
      simp only [List.length_cons]
      ring
    rwa [hexp] at h3

theorem sha256Nat_lt (msg : List Nat) : sha256Nat msg < 2 ^ 256 := by
  unfold sha256Nat
  have hbound := foldl_digest_bound
    ((chunk64 (sha256Pad msg)).foldl sha256Compress sha256H0) 0 0 (by norm_num)
  rcases foldl_compress_length (chunk64 (sha256Pad msg)) sha256H0 with hlen | hnil
  · rw [hlen] at hbound
    simpa using hbound
  · rw [hnil] at hbound ⊢
    simpa using hbound

/-- C4 counterexample: the key is a 256-bit digest rendered as hex, so over
the infinitely many possible input texts two distinct inputs must collide
(pigeonhole); "changing any one of the inputs always changes the key" is
therefore false as a universal statement. -/
theorem C4_counterexample :
    ¬ (∀ (i1 i2 : String) (o : ExtractOptions),
        i1 ≠ i2 → computeCacheKey i1 o ≠ computeCacheKey i2 o) := by
  intro hall
  have hlen : ∀ n : Nat, (String.mk (List.replicate n 'a')).length = n := by
    intro n
    show (List.replicate n 'a').length = n
    exact List.length_replicate n 'a'
  let o0 : ExtractOptions :=
    ⟨Json.null, "", none, none, [], none, none, none, none, none, none, none, none⟩
  let f : Nat → Fin (2 ^ 256) := fun n =>
    ⟨sha256Nat (strBytes (cacheKeyData (String.mk (List.replicate n 'a'))
        Json.null "" "unknown" none none)), sha256Nat_lt _⟩
  obtain ⟨m, n, hmn, heq⟩ := Finite.exists_ne_map_eq_of_infinite f
  have hne : String.mk (List.replicate m 'a') ≠ String.mk (List.replicate n 'a') := by
    intro hs
    apply hmn
    have hl := congrArg String.length hs
    rwa [hlen, hlen] at hl
  have hv : sha256Nat (strBytes (cacheKeyData (String.mk (List.replicate m 'a'))
        Json.null "" "unknown" none none))
      = sha256Nat (strBytes (cacheKeyData (String.mk (List.replicate n 'a'))
        Json.null "" "unknown" none none)) := congrArg Fin.val heq
  exact hall (String.mk (List.replicate m 'a')) (String.mk (List.replicate n 'a')) o0 hne
    (congrArg hexOfDigest hv)

/-- C4 (amended): the cache key is a pure deterministic function of exactly
the input text, the serialized shape, the instruction text, the model name
(defaulting to "unknown"), and the attached external-validator command/URL
identifiers — no other request field influences it; and the serialized key
fingerprint (the SHA-256 preimage) is injective in those components, so
changing any one of them changes the fingerprint (keys can then only
coincide on a SHA-256 collision). -/
theorem C4_cache_key_pure :
    (∀ (i1 i2 : String) (o1 o2 : ExtractOptions),
        i1 = i2 →
        jsonStringify o1.schema = jsonStringify o2.schema →
        o1.prompt = o2.prompt →
        (o1.model.map ModelInfo.name).getD "unknown"
          = (o2.model.map ModelInfo.name).getD "unknown" →
        o1.validateCommand = o2.validateCommand →
        o1.validateUrl = o2.validateUrl →
        computeCacheKey i1 o1 = computeCacheKey i2 o2)
    ∧ (∀ (i1 i2 : String) (s1 s2 : Json) (p1 p2 m1 m2 : String)
          (c1 c2 u1 u2 : Option String),
        cacheKeyData i1 s1 p1 m1 c1 u1 = cacheKeyData i2 s2 p2 m2 c2 u2 →
        i1 = i2 ∧ jsonStringify s1 = jsonStringify s2 ∧ p1 = p2 ∧ m1 = m2
          ∧ c1 = c2 ∧ u1 = u2) := by
  constructor
  · intro i1 i2 o1 o2 hi hs hp hm hc hu
    unfold computeCacheKey cacheKeyData
    rw [hi, hs, hp, hm, hc, hu]
  · intro i1 i2 s1 s2 p1 p2 m1 m2 c1 c2 u1 u2 h
    exact cacheKeyData_inj i1 i2 s1 s2 p1 p2 m1 m2 c1 c2 u1 u2 h

/-- C4 witness: determinism applied to two concrete requests agreeing on the
key inputs but differing in `maxTurns`, and fingerprint injectivity applied
at a concrete fingerprint equation. -/
theorem C4_witness :
    computeCacheKey "in"
        ⟨Json.null, "p", none, none, [], none, none, some "cmd", none, none, none, none, none⟩
      = computeCacheKey "in"
        ⟨Json.null, "p", none, none, [], none, none, some "cmd", none, some 5, none, none, none⟩
    ∧ ("a" : String) = "a" := by
  constructor
  · exact C4_cache_key_pure.1 "in" "in"
      ⟨Json.null, "p", none, none, [], none, none, some "cmd", none, none, none, none, none⟩
      ⟨Json.null, "p", none, none, [], none, none, some "cmd", none, some 5, none, none, none⟩
      rfl rfl rfl rfl rfl rfl
  · exact (C4_cache_key_pure.2 "a" "a" Json.null Json.null "p" "p" "m" "m"
      none none none none rfl).1

theorem lookupField_objSet_self (l : List (String × Json)) (k : String) (v : Json) :
    lookupField (objSet l k v) k = some v := by
  induction l with
  | nil => simp [objSet, lookupField]
  | cons x rest ih =>
    obtain ⟨k0, v0⟩ := x
    by_cases he : k0 = k
    · simp [objSet, he, lookupField]
    · simp [objSet, he, lookupField, ih]

theorem lookupField_objSet_ne (l : List (String × Json)) (k k' : String) (v : Json)
    (h : k' ≠ k) : lookupField (objSet l k v) k' = lookupField l k' := by
  have hkk : ¬(k = k') := fun hh => h hh.symm
  induction l with
  | nil => simp [objSet, lookupField, hkk]
  | cons x rest ih =>
    obtain ⟨k0, v0⟩ := x
    by_cases he : k0 = k
    · subst he
      simp [objSet, lookupField, hkk]
    · by_cases he2 : k0 = k'
      · subst he2
        simp [objSet, lookupField, he]
      · simp [objSet, lookupField, he, he2, ih]

theorem lookup_normFieldsExcept (skip : String) (fields : List (String × Json)) :
    lookupField (normFieldsExcept (some skip) fields) skip = none := by
  induction fields with
  | nil => simp [normFieldsExcept, lookupField]
  | cons x rest ih =>
    obtain ⟨k, v⟩ := x
    by_cases he : skip = k
    · subst he
      simp [normFieldsExcept, ih]
    · have hne : ¬(some skip = some k) := by simpa using he
      have hne2 : ¬(k = skip) := fun hh => he hh.symm
      simp [normFieldsExcept, hne, lookupField, hne2, ih]

theorem collectAux_all_t (t : String) : ∀ (variants : List Json),
    (∀ v ∈ variants, ∃ vf, v = Json.obj vf ∧ lookupField vf "type" = some (Json.str t)) →
    collectAux variants [t] = [t] := by
  intro variants
  induction variants with
  | nil => intro _; rfl
  | cons v rest ih =>
    intro h
    obtain ⟨vf, heq, hty⟩ := h v (by simp)
    subst heq
    simp only [collectAux, hty]
    rw [if_pos (by simp)]
    exact ih (fun w hw => h w (by simp [hw]))

theorem collectEnumTypes_all (t : String) (v0 : Json) (rest : List Json)
    (h : ∀ v ∈ v0 :: rest, ∃ vf, v = Json.obj vf
        ∧ lookupField vf "type" = some (Json.str t)) :
    collectEnumTypes (v0 :: rest) = [t] := by
  obtain ⟨vf, heq, hty⟩ := h v0 (by simp)
  subst heq
  simp only [collectEnumTypes, collectAux, hty]
  rw [if_neg (by simp)]
  simpa using collectAux_all_t t rest (fun w hw => h w (by simp [hw]))

/-- C5: reference resolution is a total function (the in-progress set makes
the recursion well-founded even on cyclic schemas), and a reference whose
target is found but which is already being resolved — a cycle edge — is
returned as the unresolved reference node itself. -/
theorem C5_cycle_termination :
    (∀ s : Json, ∃ v : Json, resolveRefs s = v)
    ∧ (∀ (defs : List (String × Json)) (resolving : List String)
          (seen fields : List (String × Json)) (ref : String) (target : Json),
        lookupField fields "$ref" = some (Json.str ref) →
        resolveRef ref defs = some target →
        jsTruthy target = true →
        alistGet seen ref = none →
        ref ∈ resolving →
        resolveNode defs resolving (Json.obj fields) seen = (Json.obj fields, seen)) := by
  constructor
  · intro s
    exact ⟨_, rfl⟩
  · intro defs resolving seen fields ref target href htarget htru hseen hres
    rw [resolveNode.eq_def]
    simp only [href, hseen]
    split
    · rename_i target2 heq
      rw [htarget] at heq
      injection heq with heq2
      subst heq2
      rw [if_pos htru, dif_pos hres]
    · rename_i heq
      rw [htarget] at heq
      exact Option.noConfusion heq

/-- C5 witness: the cycle-edge fact evaluated on the concrete self-referential
schema `\x7b "$defs": \x7b a: \x7b "$ref": "#/$defs/a" \x7d \x7d, "$ref": "#/$defs/a" \x7d`. -/
theorem C5_witness :
    (∃ v : Json, resolveRefs (Json.obj
        [("$defs", Json.obj [("a", Json.obj [("$ref", Json.str "#/$defs/a")])]),
         ("$ref", Json.str "#/$defs/a")]) = v)
    ∧ resolveNode [("a", Json.obj [("$ref", Json.str "#/$defs/a")])] ["#/$defs/a"]
        (Json.obj [("$ref", Json.str "#/$defs/a")]) []
      = (Json.obj [("$ref", Json.str "#/$defs/a")], []) := by
  constructor
  · exact C5_cycle_termination.1 _
  · exact C5_cycle_termination.2 [("a", Json.obj [("$ref", Json.str "#/$defs/a")])]
      ["#/$defs/a"] [] [("$ref", Json.str "#/$defs/a")] "#/$defs/a"
      (Json.obj [("$ref", Json.str "#/$defs/a")]) rfl rfl rfl rfl (by simp)

/-- C6: for an object node whose non-empty `anyOf` consists entirely of
const variants all carrying the same string `type` t, literal normalization
yields an object whose `enum` lists exactly those constants in order, whose
`type` is t, and which carries no `anyOf` member. -/
theorem C6_literal_normalization :
    ∀ (fields : List (String × Json)) (variants : List Json) (t : String),
      lookupField fields "anyOf" = some (Json.arr variants) →
      variants ≠ [] →
      (∀ v ∈ variants, isConstSchema v = true) →
      (∀ v ∈ variants, ∃ vf, v = Json.obj vf
          ∧ lookupField vf "type" = some (Json.str t)) →
      ∃ out, normalizeLiterals (Json.obj fields) = Json.obj out
        ∧ lookupField out "enum" = some (Json.arr (variants.map constValue))
        ∧ lookupField out "type" = some (Json.str t)
        ∧ lookupField out "anyOf" = none := by
  intro fields variants t hanyof hne hconst htype
  cases variants with
  | nil => exact absurd rfl hne
  | cons v0 rest =>
    have hcollect : collectEnumTypes (v0 :: rest) = [t] := collectEnumTypes_all t v0 rest htype
    have hall : (v0 :: rest).all isConstSchema = true :=
      List.all_eq_true.mpr (fun v hv => hconst v hv)
    have hcond : ((v0 :: rest).length > 0 && (v0 :: rest).all isConstSchema) = true := by
      simp [hall]
    refine ⟨objSet (objSet (normFieldsExcept (some "anyOf") fields) "enum"
        (Json.arr ((v0 :: rest).map constValue))) "type" (Json.str t), ?_, ?_, ?_, ?_⟩
    · rw [normalizeLiterals.eq_def]
      simp only [hanyof, hcond, if_true, hcollect]
      simp [List.headD]
    · rw [lookupField_objSet_ne _ _ _ _ (by decide), lookupField_objSet_self]
    · rw [lookupField_objSet_self]
    · rw [lookupField_objSet_ne _ _ _ _ (by decide),
        lookupField_objSet_ne _ _ _ _ (by decide), lookup_normFieldsExcept]

/-- C6 witness: literal normalization on a concrete node with two string
constants "a" and "b" sharing base type "string". -/
theorem C6_witness :
    ∃ out, normalizeLiterals (Json.obj
        [("anyOf", Json.arr
          [Json.obj [("const", Json.str "a"), ("type", Json.str "string")],
           Json.obj [("const", Json.str "b"), ("type", Json.str "string")]]),
         ("description", Json.str "d")]) = Json.obj out
      ∧ lookupField out "enum" = some (Json.arr [Json.str "a", Json.str "b"])
      ∧ lookupField out "type" = some (Json.str "string")
      ∧ lookupField out "anyOf" = none := by
  have h := C6_literal_normalization
    [("anyOf", Json.arr
      [Json.obj [("const", Json.str "a"), ("type", Json.str "string")],
       Json.obj [("const", Json.str "b"), ("type", Json.str "string")]]),
     ("description", Json.str "d")]
    [Json.obj [("const", Json.str "a"), ("type", Json.str "string")],
     Json.obj [("const", Json.str "b"), ("type", Json.str "string")]]
    "string" rfl (by simp) ?_ ?_
  · obtain ⟨out, h1, h2, h3, h4⟩ := h
    exact ⟨out, h1, by simpa using h2, h3, h4⟩
  · intro v hv
    simp only [List.mem_cons, List.mem_singleton, List.not_mem_nil, or_false] at hv
    rcases hv with rfl | rfl <;> rfl
  · intro v hv
    simp only [List.mem_cons, List.mem_singleton, List.not_mem_nil, or_false] at hv
    rcases hv with rfl | rfl
    · exact ⟨_, rfl, rfl⟩
    · exact ⟨_, rfl, rfl⟩

theorem pipelineSpec_cons (layer : VLayer) (r : Except String Unit)
    (rest : List (VLayer × Except String Unit)) :
    pipelineSpec ((layer, r) :: rest)
      = seqLayer (runLayer layer (some r)) (fun _ => pipelineSpec rest) := by
  cases r with
  | ok u => simp [pipelineSpec, runLayer, seqLayer]
  | error e => simp [pipelineSpec, runLayer, seqLayer]

theorem runLayer_none (layer : VLayer) : runLayer layer none = ([], Except.ok ()) := rfl

theorem seqLayer_skip (next : Unit → List VEvent × Except String Unit) :
    seqLayer ([], Except.ok ()) next = next () := by
  simp [seqLayer]

theorem seqLayer_unit (r : List VEvent × Except String Unit) :
    seqLayer r (fun _ => ([], Except.ok ())) = r := by
  obtain ⟨evs, res⟩ := r
  cases res with
  | ok u => simp [seqLayer]
  | error e => simp [seqLayer]

/-- C8: the validation pipeline coincides with its specification: the
configured layers are attempted in the fixed order sync, async, command,
http with absent layers skipped; each attempted layer emits a start event
then exactly one of a pass event or a failure event carrying the message;
the pipeline stops at the first failing layer (no later layer contributes)
and rethrows that failure. -/
theorem C8_validation_pipeline :
    ∀ (data : Json) (o : ExtractOptions)
      (runCmd runHttp : String → Json → Except String Unit),
      runValidators data o runCmd runHttp
        = pipelineSpec (pipelineLayers data o runCmd runHttp) := by
  intro data o rc rh
  cases hv : o.validate <;> cases ha : o.validateAsync <;>
    cases hc : o.validateCommand <;> cases hu : o.validateUrl <;>
    simp [runValidators, pipelineLayers, hv, ha, hc, hu, pipelineSpec_cons,
      seqLayer_unit, pipelineSpec, runLayer_none, seqLayer_skip]

/-- C9 counterexample: a 400 response whose JSON body carries the string
`error` field "" — the claim says the failure message is that field (the
empty string), but the code falls back to the generic status message. -/
theorem C9_counterexample :
    parseJson "\x7b\"error\":\"\"\x7d" = some (Json.obj [("error", Json.str "")])
    ∧ runHttpValidatorM Json.null "http://v"
        (fun _ _ => HttpResponse.mk 400 "\x7b\"error\":\"\"\x7d")
      = Except.error (HttpErr.mk "Validator returned 400" "http://v" 400)
    ∧ ("Validator returned 400" : String) ≠ "" := by
  refine ⟨rfl, rfl, by decide⟩

/-- C9 (amended): the HTTP layer passes iff the POST of the serialized
candidate returns a 2xx status; otherwise it throws an error carrying that
status and the url, whose message is the JSON body's string `error` field,
else its string `message` field, else the raw body, with the generic
"Validator returned N" used when the body is empty or the selected message
is the empty string. -/
theorem C9_http_validator :
    (∀ (data : Json) (url : String) (fetch : String → String → HttpResponse),
        runHttpValidatorM data url fetch = Except.ok () ↔
          (200 ≤ (fetch url (jsonStringify data)).status
            ∧ (fetch url (jsonStringify data)).status ≤ 299))
    ∧ (∀ (data : Json) (url : String) (fetch : String → String → HttpResponse),
        responseOk (fetch url (jsonStringify data)) = false →
        ∃ e : HttpErr, runHttpValidatorM data url fetch = Except.error e
          ∧ e.statusCode = (fetch url (jsonStringify data)).status
          ∧ e.url = url
          ∧ ((readErrorBody (fetch url (jsonStringify data)).body ≠ "" ∧
                e.message = readErrorBody (fetch url (jsonStringify data)).body)
             ∨ (readErrorBody (fetch url (jsonStringify data)).body = "" ∧
                e.message = "Validator returned "
                  ++ toString (fetch url (jsonStringify data)).status)))
    ∧ (∀ (body : String) (fields : List (String × Json)) (m : String),
        body ≠ "" → parseJson body = some (Json.obj fields) →
        lookupField fields "error" = some (Json.str m) →
        readErrorBody body = m)
    ∧ (∀ (body : String) (fields : List (String × Json)) (m : String),
        body ≠ "" → parseJson body = some (Json.obj fields) →
        (∀ s, lookupField fields "error" ≠ some (Json.str s)) →
        lookupField fields "message" = some (Json.str m) →
        readErrorBody body = m)
    ∧ (∀ body : String, body ≠ "" → parseJson body = none → readErrorBody body = body) := by
  refine ⟨?_, ?_, ?_, ?_, ?_⟩
  · intro data url fetch
    unfold runHttpValidatorM
    constructor
    · intro h
      by_cases hok : responseOk (fetch url (jsonStringify data)) = true
      · unfold responseOk at hok
        simp only [Bool.and_eq_true, decide_eq_true_eq] at hok
        exact hok
      · rw [if_neg hok] at h
        exact Except.noConfusion h
    · intro h
      have hok : responseOk (fetch url (jsonStringify data)) = true := by
        unfold responseOk
        simp only [Bool.and_eq_true, decide_eq_true_eq]
        exact h
      rw [if_pos hok]
  · intro data url fetch hok
    unfold runHttpValidatorM
    rw [if_neg (by simp [hok])]
    by_cases hm : readErrorBody (fetch url (jsonStringify data)).body = ""
    · refine ⟨⟨"Validator returned " ++ toString (fetch url (jsonStringify data)).status,
        url, (fetch url (jsonStringify data)).status⟩, ?_, rfl, rfl, Or.inr ⟨hm, rfl⟩⟩
      simp [hm]
    · refine ⟨⟨readErrorBody (fetch url (jsonStringify data)).body,
        url, (fetch url (jsonStringify data)).status⟩, ?_, rfl, rfl, Or.inl ⟨hm, rfl⟩⟩
      simp [hm]
  · intro body fields m hne hparse herr
    unfold readErrorBody
    rw [if_neg hne, hparse]
    simp only [herr]
  · intro body fields m hne hparse herr hmsg
    unfold readErrorBody
    rw [if_neg hne, hparse]
    cases he : lookupField fields "error" with
    | none => simp only [he, hmsg]
    | some v =>
      cases v with
      | str s => exact absurd he (herr s)
      | null => simp only [he, hmsg]
      | bool b => simp only [he, hmsg]
      | num l => simp only [he, hmsg]
      | arr xs => simp only [he, hmsg]
      | obj fs => simp only [he, hmsg]
  · intro body hne hparse
    unfold readErrorBody
    rw [if_neg hne, hparse]

/-- C9 witness: the amended facts evaluated at concrete responses — a 204
pass, a 500 failure with a JSON `error` body, and the message-extraction
rules at concrete bodies. -/
theorem C9_witness :
    runHttpValidatorM Json.null "http://v" (fun _ _ => HttpResponse.mk 204 "")
      = Except.ok ()
    ∧ (∃ e : HttpErr, runHttpValidatorM Json.null "http://v"
          (fun _ _ => HttpResponse.mk 500 "\x7b\"error\":\"boom\"\x7d")
        = Except.error e
        ∧ e.statusCode = 500 ∧ e.url = "http://v"
        ∧ (("boom" ≠ "" ∧ e.message = "boom")
           ∨ ("boom" = "" ∧ e.message = "Validator returned 500")))
    ∧ readErrorBody "\x7b\"error\":\"boom\"\x7d" = "boom"
    ∧ readErrorBody "\x7b\"message\":\"warn\"\x7d" = "warn"
    ∧ readErrorBody "oops" = "oops" := by
  refine ⟨?_, ?_, ?_, ?_, ?_⟩
  · exact (C9_http_validator.1 Json.null "http://v" (fun _ _ => HttpResponse.mk 204 "")).mpr
      (by norm_num)
  · have h := C9_http_validator.2.1 Json.null "http://v"
      (fun _ _ => HttpResponse.mk 500 "\x7b\"error\":\"boom\"\x7d") rfl
    obtain ⟨e, h1, h2, h3, h4⟩ := h
    refine ⟨e, h1, h2, h3, ?_⟩
    have hread : readErrorBody "\x7b\"error\":\"boom\"\x7d" = "boom" := rfl
    rw [hread] at h4
    exact h4
  · exact C9_http_validator.2.2.1 "\x7b\"error\":\"boom\"\x7d" [("error", Json.str "boom")]
      "boom" (by decide) rfl rfl
  · exact C9_http_validator.2.2.2.1 "\x7b\"message\":\"warn\"\x7d"
      [("message", Json.str "warn")] "warn" (by decide) rfl
      (fun s h => by exact Option.noConfusion h) rfl
  · exact C9_http_validator.2.2.2.2 "oops" (by decide) rfl

/-- C10: an assistant turn with no matching tool invocation whose text is
exactly the JSON literal null yields no extractable candidate:
parseJsonFromText returns JS null, and the loop appends the assistant
message plus the continue instruction and proceeds to the next turn,
emitting no validation event for this turn (so the value null is never
schema-validated). -/
theorem C10_null_literal_no_candidate :
    ∀ (ctx : LoopCtx) (turn rem : Nat) (messages : List Message) (usage : Usage)
      (lastErr : Option String) (store : Option (String × MemoryCache CacheEntry))
      (assistant : AssistantMessage),
      ctx.abortedAt turn = false →
      ctx.llm turn messages = Except.ok assistant →
      findToolCall assistant "respond" = none →
      getTextContent assistant = "null" →
      parseJsonFromText assistant = Json.null
      ∧ runTurns ctx turn (rem + 1) messages usage lastErr store
        = ⟨(runTurns ctx (turn + 1) rem
              (messages ++ [Message.assistant assistant, createContinueMessage ctx.now])
              (addUsage usage assistant.usage) lastErr store).result,
           [XEvent.turnStart turn, XEvent.llmStart, XEvent.llmEnd,
            XEvent.thinkingEv "null", XEvent.turnEnd turn false]
             ++ (runTurns ctx (turn + 1) rem
                  (messages ++ [Message.assistant assistant, createContinueMessage ctx.now])
                  (addUsage usage assistant.usage) lastErr store).events,
           (runTurns ctx (turn + 1) rem
              (messages ++ [Message.assistant assistant, createContinueMessage ctx.now])
              (addUsage usage assistant.usage) lastErr store).messages⟩ := by
  intro ctx turn rem messages usage lastErr store assistant hab hllm htc htext
  have hparse : parseJsonFromText assistant = Json.null := by
    unfold parseJsonFromText
    rw [htext]
    rfl
  refine ⟨hparse, ?_⟩
  simp only [runTurns, hab, hllm, htc, hparse, htext, Bool.false_eq_true, if_false,
    Json.isNull, List.append_assoc, List.cons_append, List.nil_append]
  simp only [if_true]

/-- C10 witness: the null-literal turn evaluated at a concrete context whose
model answer is the bare text "null". -/
theorem C10_witness :
    parseJsonFromText (AssistantMessage.mk [ContentBlock.text "null"] usageZero)
      = Json.null :=
  (C10_null_literal_no_candidate
    (LoopCtx.mk
      ⟨Json.null, "p", none, none, [], none, none, none, none, none, none, none, none⟩
      (fun _ _ => Except.ok (AssistantMessage.mk [ContentBlock.text "null"] usageZero))
      (fun j => Except.ok j) (fun _ _ => Except.ok ()) (fun _ _ => Except.ok ())
      (fun _ => false) 0 none 3)
    1 0 [] usageZero none none
    (AssistantMessage.mk [ContentBlock.text "null"] usageZero)
    rfl rfl rfl rfl).1

theorem runTurns_messages_append (ctx : LoopCtx) :
    ∀ (rem turn : Nat) (messages : List Message) (usage : Usage)
      (lastErr : Option String) (store : Option (String × MemoryCache CacheEntry)),
      ∃ suffix, (runTurns ctx turn rem messages usage lastErr store).messages
        = messages ++ suffix := by
  intro rem
  induction rem with
  | zero =>
    intro turn messages usage lastErr store
    exact ⟨[], by simp [runTurns]⟩
  | succ rem ih =>
    intro turn messages usage lastErr store
    cases hab : ctx.abortedAt turn with
    | true => exact ⟨[], by simp [runTurns, hab]⟩
    | false =>
      cases hllm : ctx.llm turn messages with
      | error e => exact ⟨[], by simp [runTurns, hab, hllm]⟩
      | ok assistant =>
        cases htc : findToolCall assistant "respond" with
        | none =>
          cases hnull : (parseJsonFromText assistant).isNull with
          | true =>
            obtain ⟨s, hs⟩ := ih (turn + 1)
              (messages ++ [Message.assistant assistant, createContinueMessage ctx.now])
              (addUsage usage assistant.usage) lastErr store
            refine ⟨[Message.assistant assistant, createContinueMessage ctx.now] ++ s, ?_⟩
            simp only [runTurns, hab, hllm, htc, hnull, Bool.false_eq_true, if_false,
              if_true, List.append_assoc] at hs ⊢
            try rw [hs]
            try simp
          | false =>
            cases hso : (match ctx.schemaValidate
                (normalizeToolArguments (parseJsonFromText assistant) ctx.unwrapKey) with
              | Except.error e => Except.error e
              | Except.ok validated => unwrapToolArguments validated ctx.unwrapKey :
                Except String Json) with
            | error emsg =>
              obtain ⟨s, hs⟩ := ih (turn + 1)
                (messages ++ [Message.assistant assistant,
                  createSchemaFeedbackMessage emsg ctx.now])
                (addUsage usage assistant.usage) (some emsg) store
              refine ⟨[Message.assistant assistant,
                createSchemaFeedbackMessage emsg ctx.now] ++ s, ?_⟩
              simp only [runTurns, hab, hllm, htc, hnull, hso, Bool.false_eq_true, if_false,
                List.append_assoc] at hs ⊢
              try rw [hs]
              try simp
            | ok data =>
              cases hvr : (runValidators data ctx.o ctx.runCmd ctx.runHttp).2 with
              | error emsg =>
                obtain ⟨s, hs⟩ := ih (turn + 1)
                  (messages ++ [Message.assistant assistant,
                    createSchemaFeedbackMessage emsg ctx.now])
                  (addUsage usage assistant.usage) (some emsg) store
                refine ⟨[Message.assistant assistant,
                  createSchemaFeedbackMessage emsg ctx.now] ++ s, ?_⟩
                simp only [runTurns, hab, hllm, htc, hnull, hso, hvr, Bool.false_eq_true,
                  if_false, List.append_assoc] at hs ⊢
                try rw [hs]
                try simp
              | ok u =>
                refine ⟨[], ?_⟩
                simp [runTurns, hab, hllm, htc, hnull, hso, hvr]
        | some tc =>
          cases hnull : (tc.arguments).isNull with
          | true =>
            obtain ⟨s, hs⟩ := ih (turn + 1)
              (messages ++ [Message.assistant assistant, createContinueMessage ctx.now])
              (addUsage usage assistant.usage) lastErr store
            refine ⟨[Message.assistant assistant, createContinueMessage ctx.now] ++ s, ?_⟩
            simp only [runTurns, hab, hllm, htc, hnull, Bool.false_eq_true, if_false,
              if_true, List.append_assoc] at hs ⊢
            try rw [hs]
            try simp
          | false =>
            cases hso : (match ctx.schemaValidate
                (normalizeToolArguments tc.arguments ctx.unwrapKey) with
              | Except.error e => Except.error e
              | Except.ok validated => unwrapToolArguments validated ctx.unwrapKey :
                Except String Json) with
            | error emsg =>
              obtain ⟨s, hs⟩ := ih (turn + 1)
                (messages ++ [Message.assistant assistant,
                  createSchemaToolResult tc.id emsg ctx.now])
                (addUsage usage assistant.usage) (some emsg) store
              refine ⟨[Message.assistant assistant,
                createSchemaToolResult tc.id emsg ctx.now] ++ s, ?_⟩
              simp only [runTurns, hab, hllm, htc, hnull, hso, Bool.false_eq_true, if_false,
                List.append_assoc] at hs ⊢
              try rw [hs]
              try simp
            | ok data =>
              cases hvr : (runValidators data ctx.o ctx.runCmd ctx.runHttp).2 with
              | error emsg =>
                obtain ⟨s, hs⟩ := ih (turn + 1)
                  (messages ++ [Message.assistant assistant,
                    createSchemaToolResult tc.id emsg ctx.now])
                  (addUsage usage assistant.usage) (some emsg) store
                refine ⟨[Message.assistant assistant,
                  createSchemaToolResult tc.id emsg ctx.now] ++ s, ?_⟩
                simp only [runTurns, hab, hllm, htc, hnull, hso, hvr, Bool.false_eq_true,
                  if_false, List.append_assoc] at hs ⊢
                try rw [hs]
                try simp
              | ok u =>
                refine ⟨[], ?_⟩
                simp [runTurns, hab, hllm, htc, hnull, hso, hvr]

theorem mainFlow_messages_append (input : Sum String (List Message)) (o : ExtractOptions)
    (maxTurns : Nat) (model : ModelInfo) (sv : Json → Except String Json)
    (rc rh : String → Json → Except String Unit) (ab : Nat → Bool) (now : Nat)
    (cache : Option (String × MemoryCache CacheEntry)) :
    ∃ suffix, ∀ evp : List XEvent,
      (mainFlow input o maxTurns model sv rc rh ab now evp cache).messages
        = buildMessages input o.attachments now ++ suffix := by
  cases hsf : o.streamFn with
  | none => exact ⟨[], fun evp => by simp [mainFlow, hsf]⟩
  | some llm =>
    obtain ⟨s, hs⟩ := runTurns_messages_append
      ⟨o, llm, sv, rc, rh, ab, now, (normalizeToolSchema model o.schema).2, maxTurns⟩
      maxTurns 1 (buildMessages input o.attachments now) usageZero none cache
    refine ⟨s, fun evp => ?_⟩
    simp only [mainFlow, hsf]
    exact hs

/-- C1 counterexample: a structured conversation input of one user message,
run against a model answer that carries no tool call and no parseable JSON
with one allowed turn — after the call the working array (the caller's own
array, since buildMessages returns the input array itself) holds three
messages, not the original one: the assistant message and a continue
instruction were appended. -/
theorem C1_counterexample :
    (runExtraction (Sum.inr [Message.user (UserContent.plain "hi") 0])
        ⟨Json.obj [("type", Json.str "object")], "p",
          some ⟨"test", "m", "m", 1000, 1000, false⟩, none, [],
          none, none, none, none, some 1,
          some (fun _ _ => Except.ok (AssistantMessage.mk [ContentBlock.text "hi"] usageZero)),
          none, none⟩
        1 (fun j => Except.ok j) (fun _ _ => Except.ok ()) (fun _ _ => Except.ok ())
        (fun _ => false) 0 (createMemoryCache none)).messages
      = [Message.user (UserContent.plain "hi") 0,
         Message.assistant (AssistantMessage.mk [ContentBlock.text "hi"] usageZero),
         createContinueMessage 0]
    ∧ [Message.user (UserContent.plain "hi") 0,
       Message.assistant (AssistantMessage.mk [ContentBlock.text "hi"] usageZero),
       createContinueMessage 0]
      ≠ [Message.user (UserContent.plain "hi") 0] := by
  constructor
  · rfl
  · intro h
    have hl := congrArg List.length h
    simp at hl

/-- C1 (amended): the request options themselves are never mutated (the
embedding is pure in them), but a structured conversation input is aliased
as the working conversation: the loop only ever appends to it (assistant
messages plus continue/feedback instructions on unparsable or failed
turns), never altering or removing existing entries, and after a run the
caller's array equals its original value followed by some (possibly empty)
appended suffix. -/
theorem C1_conversation_aliasing :
    (∀ (ctx : LoopCtx) (rem turn : Nat) (messages : List Message) (usage : Usage)
        (lastErr : Option String) (store : Option (String × MemoryCache CacheEntry)),
        ∃ suffix, (runTurns ctx turn rem messages usage lastErr store).messages
          = messages ++ suffix)
    ∧ (∀ (msgs : List Message) (o : ExtractOptions) (maxTurns : Nat)
          (sv : Json → Except String Json) (rc rh : String → Json → Except String Unit)
          (ab : Nat → Bool) (now : Nat) (ds : MemoryCache CacheEntry),
        ∃ suffix, (runExtraction (Sum.inr msgs) o maxTurns sv rc rh ab now ds).messages
          = msgs ++ suffix) := by
  constructor
  · intro ctx rem turn messages usage lastErr store
    exact runTurns_messages_append ctx rem turn messages usage lastErr store
  · intro msgs o maxTurns sv rc rh ab now ds
    have hbm : buildMessages (Sum.inr msgs) o.attachments now = msgs := rfl
    cases hm : o.model with
    | none => exact ⟨[], by simp [runExtraction, hm, callerView]⟩
    | some model =>
      cases hab : ab 0 with
      | true => exact ⟨[], by simp [runExtraction, hm, hab, callerView]⟩
      | false =>
        cases hrc : resolveCacheM (Sum.inr msgs) o ds with
        | none =>
          obtain ⟨s, hs⟩ := mainFlow_messages_append (Sum.inr msgs) o maxTurns model
            sv rc rh ab now none
          rw [hbm] at hs
          refine ⟨s, ?_⟩
          simp only [runExtraction, hm, hab, hrc]
          exact hs _
        | some info =>
          obtain ⟨key, store, ttl, revalidate⟩ := info
          cases hget : memGet store key with
          | mk entryOpt store1 =>
            cases entryOpt with
            | none =>
              obtain ⟨s, hs⟩ := mainFlow_messages_append (Sum.inr msgs) o maxTurns model
                sv rc rh ab now (some (key, store1))
              rw [hbm] at hs
              refine ⟨s, ?_⟩
              simp only [runExtraction, hm, hab, hrc, hget]
              exact hs _
            | some entry =>
              cases hexp : ttlExpired ttl (now - entry.timestamp) with
              | true =>
                obtain ⟨s, hs⟩ := mainFlow_messages_append (Sum.inr msgs) o maxTurns model
                  sv rc rh ab now (some (key, store1))
                rw [hbm] at hs
                refine ⟨s, ?_⟩
                simp only [runExtraction, hm, hab, hrc, hget, hexp, Bool.not_true,
                  Bool.false_eq_true, if_false]
                exact hs _
              | false =>
                cases hrev : revalidate with
                | false =>
                  refine ⟨[], ?_⟩
                  simp [runExtraction, hm, hab, hrc, hget, hexp, hrev, callerView]
                | true =>
                  cases hvr : (runValidators entry.data o rc rh).2 with
                  | ok u =>
                    refine ⟨[], ?_⟩
                    simp [runExtraction, hm, hab, hrc, hget, hexp, hrev, hvr, callerView]
                  | error e =>
                    obtain ⟨s, hs⟩ := mainFlow_messages_append (Sum.inr msgs) o maxTurns
                      model sv rc rh ab now (some (key, memDelete store1 key))
                    rw [hbm] at hs
                    refine ⟨s, ?_⟩
                    simp only [runExtraction, hm, hab, hrc, hget, hexp, hrev, hvr,
                      Bool.not_false, Bool.false_eq_true, if_false, if_true]
                    exact hs _

/-- C3 counterexample: with no stream function configured but a fresh cache
hit available, the extraction returns the cached result (after performing
the cache check) instead of rejecting in the start state — so "rejects
immediately ... before the cache check ... and never returns a result" is
false for a missing generation capability. -/
theorem C3_counterexample :
    (runExtraction (Sum.inl "inp")
        ⟨Json.null, "p", some ⟨"test", "m", "m", 1000, 1000, false⟩, none, [],
          none, none, none, none, none, none,
          some ⟨some (MemoryCache.mk 10
              [("k", CacheEntry.mk (Json.str "cached") 0 1 usageZero)]),
            none, none, some (fun _ => "k")⟩,
          none⟩
        3 (fun j => Except.ok j) (fun _ _ => Except.ok ()) (fun _ _ => Except.ok ())
        (fun _ => false) 0 (createMemoryCache none)).result
      = Except.ok ⟨Json.str "cached", 1, usageZero⟩
    ∧ (runExtraction (Sum.inl "inp")
        ⟨Json.null, "p", some ⟨"test", "m", "m", 1000, 1000, false⟩, none, [],
          none, none, none, none, none, none,
          some ⟨some (MemoryCache.mk 10
              [("k", CacheEntry.mk (Json.str "cached") 0 1 usageZero)]),
            none, none, some (fun _ => "k")⟩,
          none⟩
        3 (fun j => Except.ok j) (fun _ _ => Except.ok ()) (fun _ _ => Except.ok ())
        (fun _ => false) 0 (createMemoryCache none)).events
      = [XEvent.start 3, XEvent.cacheHit "k" 0, XEvent.completeEv 1]
    ∧ (⟨Json.null, "p", some ⟨"test", "m", "m", 1000, 1000, false⟩, none, [],
          none, none, none, none, none, none,
          some ⟨some (MemoryCache.mk 10
              [("k", CacheEntry.mk (Json.str "cached") 0 1 usageZero)]),
            none, none, some (fun _ => "k")⟩,
          none⟩ : ExtractOptions).streamFn = none := by
  refine ⟨rfl, rfl, rfl⟩

/-- C3 (amended): a missing model is rejected immediately in the start
state — terminal error, zero turns consumed, no cache interaction and no
result; a missing stream function is also rejected with zero turns and no
result, but only after the cache check — with no cache configured the
error is emitted right after the start event, while a fresh cache hit
returns the cached result even though no generation capability exists. -/
theorem C3_start_rejection :
    (∀ (input : Sum String (List Message)) (o : ExtractOptions) (maxTurns : Nat)
        (sv : Json → Except String Json) (rc rh : String → Json → Except String Unit)
        (ab : Nat → Bool) (now : Nat) (ds : MemoryCache CacheEntry),
        o.model = none →
        runExtraction input o maxTurns sv rc rh ab now ds
          = ⟨Except.error (XError.extractErr "Missing required option \"model\"."),
             [XEvent.start maxTurns, XEvent.errorEv 0], callerView input⟩)
    ∧ (∀ (input : Sum String (List Message)) (o : ExtractOptions) (maxTurns : Nat)
        (sv : Json → Except String Json) (rc rh : String → Json → Except String Unit)
        (ab : Nat → Bool) (now : Nat) (ds : MemoryCache CacheEntry) (model : ModelInfo),
        o.model = some model → ab 0 = false → o.thinking = none →
        o.streamFn = none → o.cache = none →
        runExtraction input o maxTurns sv rc rh ab now ds
          = ⟨Except.error (XError.extractErr "Missing required option \"streamFn\"."),
             [XEvent.start maxTurns, XEvent.errorEv 0],
             buildMessages input o.attachments now⟩)
    ∧ (∀ (input : Sum String (List Message)) (o : ExtractOptions) (maxTurns : Nat)
        (sv : Json → Except String Json) (rc rh : String → Json → Except String Unit)
        (ab : Nat → Bool) (now : Nat) (ds : MemoryCache CacheEntry) (model : ModelInfo)
        (key : String) (store store1 : MemoryCache CacheEntry) (ttl : Option Nat)
        (entry : CacheEntry),
        o.model = some model → ab 0 = false → o.thinking = none →
        resolveCacheM input o ds = some (key, store, ttl, false) →
        memGet store key = (some entry, store1) →
        ttlExpired ttl (now - entry.timestamp) = false →
        runExtraction input o maxTurns sv rc rh ab now ds
          = ⟨Except.ok ⟨entry.data, entry.turns, entry.usage⟩,
             [XEvent.start maxTurns, XEvent.cacheHit key (now - entry.timestamp),
              XEvent.completeEv entry.turns], callerView input⟩) := by
  refine ⟨?_, ?_, ?_⟩
  · intro input o maxTurns sv rc rh ab now ds hm
    simp [runExtraction, hm]
  · intro input o maxTurns sv rc rh ab now ds model hm hab hth hsf hcache
    simp [runExtraction, hm, hab, hth, hsf, hcache, resolveCacheM, mainFlow,
      thinkingRequestedB]
  · intro input o maxTurns sv rc rh ab now ds model key store store1 ttl entry
      hm hab hth hrc hget hexp
    simp [runExtraction, hm, hab, hth, hrc, hget, hexp, thinkingRequestedB]

/-- C3 witness: the three amended facts evaluated at concrete requests —
a request with no model, a request with a model but no stream function and
no cache, and a request with no stream function but a fresh cache hit. -/
theorem C3_witness :
    (runExtraction (Sum.inl "i")
        ⟨Json.null, "p", none, none, [], none, none, none, none, none, none, none, none⟩
        3 (fun j => Except.ok j) (fun _ _ => Except.ok ()) (fun _ _ => Except.ok ())
        (fun _ => false) 0 (createMemoryCache none)).result
      = Except.error (XError.extractErr "Missing required option \"model\".")
    ∧ (runExtraction (Sum.inl "i")
        ⟨Json.null, "p", some ⟨"test", "m", "m", 1000, 1000, false⟩, none, [],
          none, none, none, none, none, none, none, none⟩
        3 (fun j => Except.ok j) (fun _ _ => Except.ok ()) (fun _ _ => Except.ok ())
        (fun _ => false) 0 (createMemoryCache none)).result
      = Except.error (XError.extractErr "Missing required option \"streamFn\".")
    ∧ (runExtraction (Sum.inl "i")
        ⟨Json.null, "p", some ⟨"test", "m", "m", 1000, 1000, false⟩, none, [],
          none, none, none, none, none, none,
          some ⟨some (MemoryCache.mk 10
              [("q", CacheEntry.mk (Json.bool true) 0 2 usageZero)]),
            none, none, some (fun _ => "q")⟩,
          none⟩
        3 (fun j => Except.ok j) (fun _ _ => Except.ok ()) (fun _ _ => Except.ok ())
        (fun _ => false) 0 (createMemoryCache none)).result
      = Except.ok ⟨Json.bool true, 2, usageZero⟩ := by
  refine ⟨?_, ?_, ?_⟩
  · exact congrArg RunOutcome.result
      (C3_start_rejection.1 (Sum.inl "i")
        ⟨Json.null, "p", none, none, [], none, none, none, none, none, none, none, none⟩
        3 (fun j => Except.ok j) (fun _ _ => Except.ok ()) (fun _ _ => Except.ok ())
        (fun _ => false) 0 (createMemoryCache none) rfl)
  · exact congrArg RunOutcome.result
      (C3_start_rejection.2.1 (Sum.inl "i")
        ⟨Json.null, "p", some ⟨"test", "m", "m", 1000, 1000, false⟩, none, [],
          none, none, none, none, none, none, none, none⟩
        3 (fun j => Except.ok j) (fun _ _ => Except.ok ()) (fun _ _ => Except.ok ())
        (fun _ => false) 0 (createMemoryCache none) ⟨"test", "m", "m", 1000, 1000, false⟩
        rfl rfl rfl rfl rfl)
  · exact congrArg RunOutcome.result
      (C3_start_rejection.2.2 (Sum.inl "i")
        ⟨Json.null, "p", some ⟨"test", "m", "m", 1000, 1000, false⟩, none, [],
          none, none, none, none, none, none,
          some ⟨some (MemoryCache.mk 10
              [("q", CacheEntry.mk (Json.bool true) 0 2 usageZero)]),
            none, none, some (fun _ => "q")⟩,
          none⟩
        3 (fun j => Except.ok j) (fun _ _ => Except.ok ()) (fun _ _ => Except.ok ())
        (fun _ => false) 0 (createMemoryCache none) ⟨"test", "m", "m", 1000, 1000, false⟩
        "q" (MemoryCache.mk 10 [("q", CacheEntry.mk (Json.bool true) 0 2 usageZero)])
        (MemoryCache.mk 10 [("q", CacheEntry.mk (Json.bool true) 0 2 usageZero)])
        none (CacheEntry.mk (Json.bool true) 0 2 usageZero)
        rfl rfl rfl rfl rfl rfl)
